import Mathlib

/-!
Shallow embedding of `src/modules/dreamview/frontend/src/components/PNCMonitor/ScatterGraph.js`.

The file models the three cores of the component:
  * the axis window controller (`updateTickWindow`, `syncXYWindowSize`),
  * the dataset registry and frame update pipeline
    (`updateData`, `updateCar`, `updateChart`),
  * the construction guard (`generateScatterGraph`).

Modelling conventions:
  * JavaScript numbers that actually occur in the data model are finite
    doubles; they are modelled as rationals (`ℚ`).  `null`, `undefined`,
    `NaN` and `±Infinity` coordinates — all rejected by `isValidValue` —
    are modelled as `Option.none` coordinates.
  * JavaScript objects used as open property bags are modelled as ordered
    association lists (`List (String × JVal)`); assignment keeps the key
    position when the key exists and appends otherwise, matching JS
    insertion-order semantics.
  * In-place mutation of a caller-supplied object (`updateCar` mutating its
    `properties` argument) is modelled by explicit threading: the function
    returns the updated bag and the caller stores it back into the frame.
  * `Math.floor` on a finite double is `Int.floor` on `ℚ`.
-/

namespace ScatterGraph

/-- Data point of a series: `{x, y, heading}` with possibly missing/non-finite
coordinates (modelled as `none`), plus the per-point `hidden` flag that
chart.js keeps on the parallel `meta.data` array and which
`syncXYWindowSize` consults. -/
structure Pt where
  x : Option ℚ := none
  y : Option ℚ := none
  heading : Option ℚ := none
  hidden : Bool := false
  deriving DecidableEq, Repr

/-- JavaScript values appearing in the chart configuration and data model. -/
inductive JVal where
  | undef : JVal
  | str : String → JVal
  | num : ℚ → JVal
  | boolean : Bool → JVal
  | pts : List Pt → JVal
  deriving DecidableEq, Repr

instance : Inhabited JVal := ⟨JVal.undef⟩

/-- JS truthiness for the values of `JVal`.  `undef` also stands for `null`.
An array (`pts`) is an object and is always truthy, even when empty. -/
def truthy : JVal → Bool
  | .undef => false
  | .str s => s ≠ ""
  | .num q => q ≠ 0
  | .boolean b => b
  | .pts _ => true

/-- An open JS property bag: ordered association list of fields. -/
abbrev PropBag := List (String × JVal)

/-- Field read: `bag[k]`, `undefined` when absent (first occurrence wins). -/
def bagGet : PropBag → String → JVal
  | [], _ => .undef
  | (k0, v0) :: rest, k => if k0 = k then v0 else bagGet rest k

/-- Field assignment `bag[k] = v`: overwrites in place, appends when new
(JS object insertion-order semantics). -/
def bagSet : PropBag → String → JVal → PropBag
  | [], k, v => [(k, v)]
  | (k0, v0) :: rest, k, v =>
    if k0 = k then (k0, v) :: rest else (k0, v0) :: bagSet rest k v

/-- One renderable series (a chart.js dataset object).  The fields are the
keys the component itself reads or writes; every other key copied from a
property bag lands in `extra`, preserving JS object semantics. -/
structure Dataset where
  label : JVal := .undef
  showText : JVal := .undef
  text : JVal := .undef
  backgroundColor : JVal := .undef
  borderColor : JVal := .undef
  data : JVal := .undef
  specialMarker : JVal := .undef
  borderWidth : JVal := .undef
  pointRadius : JVal := .undef
  color : JVal := .undef
  showLine : JVal := .undef
  fill : JVal := .undef
  lineTension : JVal := .undef
  cubicInterpolationMode : JVal := .undef
  showLabel : JVal := .undef
  extra : PropBag := []
  deriving DecidableEq, Repr

instance : Inhabited Dataset := ⟨{}⟩

/-- `config[key] = v` for a dataset object: the additional-properties copy
loop of `updateData` writes arbitrary keys into the config object. -/
def applyProp (d : Dataset) (kv : String × JVal) : Dataset :=
  if kv.1 = "label" then { d with label := kv.2 }
  else if kv.1 = "showText" then { d with showText := kv.2 }
  else if kv.1 = "text" then { d with text := kv.2 }
  else if kv.1 = "backgroundColor" then { d with backgroundColor := kv.2 }
  else if kv.1 = "borderColor" then { d with borderColor := kv.2 }
  else if kv.1 = "data" then { d with data := kv.2 }
  else if kv.1 = "specialMarker" then { d with specialMarker := kv.2 }
  else if kv.1 = "borderWidth" then { d with borderWidth := kv.2 }
  else if kv.1 = "pointRadius" then { d with pointRadius := kv.2 }
  else if kv.1 = "color" then { d with color := kv.2 }
  else if kv.1 = "showLine" then { d with showLine := kv.2 }
  else if kv.1 = "fill" then { d with fill := kv.2 }
  else if kv.1 = "lineTension" then { d with lineTension := kv.2 }
  else if kv.1 = "cubicInterpolationMode" then { d with cubicInterpolationMode := kv.2 }
  else if kv.1 = "showLabel" then { d with showLabel := kv.2 }
  else { d with extra := bagSet d.extra kv.1 kv.2 }

/-- Fresh dataset config built by `updateData` when no series exists at the
index: the basic properties, then every key of `properties` copied on top. -/
def newConfig (name : String) (props : PropBag) (d : JVal) : Dataset :=
  let base : Dataset :=
    { label := .str name
      showText := bagGet props "showLabel"
      text := .str name
      backgroundColor := bagGet props "color"
      borderColor := bagGet props "color"
      data := d }
  props.foldl applyProp base

/-- In-place update path of `updateData`: only `text` and `data` change. -/
def setTextData (name : String) (d : JVal) (ds : Dataset) : Dataset :=
  { ds with text := .str name, data := d }

/-! ### Axis window controller -/

/-- One chart.js scale: its id, orientation, and current tick range. -/
structure Scale where
  id : String := "x-axis-0"
  horizontal : Bool := true
  min : ℚ := 0
  max : ℚ := 0
  deriving DecidableEq, Repr

/-- `updateTickWindow(scale, windowSize, midValue)`:
`mid = midValue || Math.floor((scale.max + scale.min) / 2)` — note that a
zero or non-numeric `midValue` is falsy and falls back to the floored
midpoint of the previous range. -/
def updateTickWindow (s : Scale) (windowSize : ℚ) (midValue : JVal) : Scale :=
  let mid : ℚ :=
    match midValue with
    | .num m => if m ≠ 0 then m else ((⌊(s.max + s.min) / 2⌋ : ℤ) : ℚ)
    | _ => ((⌊(s.max + s.min) / 2⌋ : ℤ) : ℚ)
  { s with max := mid + windowSize / 2, min := mid - windowSize / 2 }

/-- A dataset as seen by the axis controller: its visibility (legend state),
the axis ids recorded on its meta, and its points. -/
structure VDataset where
  visible : Bool := true
  xAxisID : String := "x-axis-0"
  yAxisID : String := "y-axis-0"
  data : List Pt := []
  deriving DecidableEq, Repr

/-- The chart contents visible to `syncXYWindowSize`. -/
structure VChart where
  datasets : List VDataset := []
  deriving DecidableEq, Repr

/-- `isValidValue`: not null/undefined/NaN/±Infinity.  Such coordinates are
modelled as `none`, so validity is `isSome`. -/
def isValidValue (v : Option ℚ) : Bool := v.isSome

/-- `IDMatches(meta)` from `syncXYWindowSize`. -/
def idMatches (s : Scale) (d : VDataset) : Bool :=
  if s.horizontal then d.xAxisID = s.id else d.yAxisID = s.id

/-- Running min/max accumulators of `syncXYWindowSize` (start as `null`). -/
structure Extents where
  minx : Option ℚ := none
  maxx : Option ℚ := none
  miny : Option ℚ := none
  maxy : Option ℚ := none
  deriving DecidableEq, Repr

/-- `if (min === null || v < min) min = v`. -/
def updMin : Option ℚ → ℚ → Option ℚ
  | none, v => some v
  | some m, v => if v < m then some v else some m

/-- `if (max === null || v > max) max = v`. -/
def updMax : Option ℚ → ℚ → Option ℚ
  | none, v => some v
  | some m, v => if v > m then some v else some m

/-- Per-point step of the extent scan: skip the point when either coordinate
is invalid or the point is hidden, otherwise feed both coordinates in. -/
def scanPoint (e : Extents) (p : Pt) : Extents :=
  match p.x, p.y with
  | some vx, some vy =>
    if p.hidden then e
    else
      { minx := updMin e.minx vx, maxx := updMax e.maxx vx
        miny := updMin e.miny vy, maxy := updMax e.maxy vy }
  | _, _ => e

/-- The extent computation of `syncXYWindowSize`: every visible dataset whose
meta matches the scale id contributes all its valid, unhidden points. -/
def scanChart (s : Scale) (c : VChart) : Extents :=
  c.datasets.foldl
    (fun e d => if d.visible && idMatches s d then d.data.foldl scanPoint e else e)
    {}

/-- `syncXYWindowSize(scale)`: when the scan found data on both axes, set the
scale range to the floored midpoint of its own axis plus/minus half of the
larger of the two spans; otherwise leave the scale untouched. -/
def syncXYWindowSize (s : Scale) (c : VChart) : Scale :=
  let e := scanChart s c
  match e.minx, e.maxx, e.miny, e.maxy with
  | some mnx, some mxx, some mny, some mxy =>
    let maxDiff := max (mxx - mnx) (mxy - mny)
    let mid : ℚ :=
      if s.horizontal then ((⌊(mxx + mnx) / 2⌋ : ℤ) : ℚ)
      else ((⌊(mxy + mny) / 2⌋ : ℤ) : ℚ)
    { s with max := mid + maxDiff / 2, min := mid - maxDiff / 2 }
  | _, _, _, _ => s

/-! ### Specification-side description of the extent scan -/

/-- Minimum of a list of rationals (`none` on the empty list). -/
def listMin : List ℚ → Option ℚ
  | [] => none
  | a :: l => some (l.foldl min a)

/-- Maximum of a list of rationals (`none` on the empty list). -/
def listMax : List ℚ → Option ℚ
  | [] => none
  | a :: l => some (l.foldl max a)

/-- The valid (both coordinates finite, not hidden) points of a point list,
as `(x, y)` pairs. -/
def vpts : List Pt → List (ℚ × ℚ) :=
  List.filterMap fun p =>
    match p.x, p.y with
    | some vx, some vy => if p.hidden then none else some (vx, vy)
    | _, _ => none

/-- All data points feeding the extent computation of a scale: the valid
points of every visible dataset whose meta matches the scale. -/
def visiblePoints (s : Scale) (c : VChart) : List (ℚ × ℚ) :=
  (c.datasets.filter fun d => d.visible && idMatches s d).flatMap fun d => vpts d.data

/-- Extent update by one valid point. -/
def updE (e : Extents) (q : ℚ × ℚ) : Extents :=
  { minx := updMin e.minx q.1, maxx := updMax e.maxx q.1
    miny := updMin e.miny q.2, maxy := updMax e.maxy q.2 }

theorem foldl_scanPoint (l : List Pt) (e : Extents) :
    l.foldl scanPoint e = (vpts l).foldl updE e := by
  induction l generalizing e with
  | nil => rfl
  | cons p rest ih =>
    rcases p with ⟨px, py, ph, phid⟩
    rcases px with _ | vx <;> rcases py with _ | vy <;> cases phid <;>
      simp [vpts, scanPoint, updE, List.filterMap_cons, ih]

theorem foldl_updE (qs : List (ℚ × ℚ)) (e : Extents) :
    qs.foldl updE e =
      { minx := (qs.map Prod.fst).foldl updMin e.minx
        maxx := (qs.map Prod.fst).foldl updMax e.maxx
        miny := (qs.map Prod.snd).foldl updMin e.miny
        maxy := (qs.map Prod.snd).foldl updMax e.maxy } := by
  induction qs generalizing e with
  | nil => rfl
  | cons q rest ih => simp [updE, ih]

theorem updMin_some (m v : ℚ) : updMin (some m) v = some (min m v) := by
  rcases lt_or_le v m with h | h
  · simp [updMin, h, min_eq_right h.le]
  · simp [updMin, not_lt.mpr h, min_eq_left h]

theorem updMax_some (m v : ℚ) : updMax (some m) v = some (max m v) := by
  rcases lt_or_le m v with h | h
  · simp [updMax, h, max_eq_right h.le]
  · simp [updMax, not_lt.mpr h, max_eq_left h]

theorem foldl_updMin_some (l : List ℚ) (m : ℚ) :
    l.foldl updMin (some m) = some (l.foldl min m) := by
  induction l generalizing m with
  | nil => rfl
  | cons a l ih => rw [List.foldl_cons, updMin_some, ih, List.foldl_cons]

theorem foldl_updMax_some (l : List ℚ) (m : ℚ) :
    l.foldl updMax (some m) = some (l.foldl max m) := by
  induction l generalizing m with
  | nil => rfl
  | cons a l ih => rw [List.foldl_cons, updMax_some, ih, List.foldl_cons]

theorem foldl_updMin_none (l : List ℚ) : l.foldl updMin none = listMin l := by
  cases l with
  | nil => rfl
  | cons a l => rw [List.foldl_cons] ; exact foldl_updMin_some l a

theorem foldl_updMax_none (l : List ℚ) : l.foldl updMax none = listMax l := by
  cases l with
  | nil => rfl
  | cons a l => rw [List.foldl_cons] ; exact foldl_updMax_some l a

theorem scanChart_aux (s : Scale) (ds : List VDataset) (e : Extents) :
    ds.foldl (fun e d => if d.visible && idMatches s d then d.data.foldl scanPoint e else e) e =
      ((ds.filter fun d => d.visible && idMatches s d).flatMap fun d => vpts d.data).foldl updE e := by
  induction ds generalizing e with
  | nil => rfl
  | cons d rest ih =>
    rw [List.foldl_cons, List.filter_cons]
    by_cases h : (d.visible && idMatches s d) = true
    · rw [if_pos h, if_pos h, List.flatMap_cons, List.foldl_append, foldl_scanPoint, ih]
    · rw [if_neg h, if_neg h, ih]

/-- The extent scan of `syncXYWindowSize` computes exactly the coordinatewise
minima and maxima of the visible valid points. -/
theorem scanChart_char (s : Scale) (c : VChart) :
    scanChart s c =
      { minx := listMin ((visiblePoints s c).map Prod.fst)
        maxx := listMax ((visiblePoints s c).map Prod.fst)
        miny := listMin ((visiblePoints s c).map Prod.snd)
        maxy := listMax ((visiblePoints s c).map Prod.snd) } := by
  unfold scanChart visiblePoints
  rw [scanChart_aux, foldl_updE]
  simp only [foldl_updMin_none, foldl_updMax_none]

theorem listMin_ne_nil (l : List ℚ) (h : l ≠ []) : ∃ m, listMin l = some m := by
  cases l with
  | nil => exact absurd rfl h
  | cons a t => exact ⟨t.foldl min a, rfl⟩

theorem listMax_ne_nil (l : List ℚ) (h : l ≠ []) : ∃ m, listMax l = some m := by
  cases l with
  | nil => exact absurd rfl h
  | cons a t => exact ⟨t.foldl max a, rfl⟩

/-- Evaluation of `syncXYWindowSize` when visible data exists: the range is
re-centred on the floored midpoint of the scale's own axis with width equal
to the larger of the two coordinate spans. -/
theorem syncXY_eval (s : Scale) (c : VChart) (mnx mxx mny mxy : ℚ)
    (hmnx : listMin ((visiblePoints s c).map Prod.fst) = some mnx)
    (hmxx : listMax ((visiblePoints s c).map Prod.fst) = some mxx)
    (hmny : listMin ((visiblePoints s c).map Prod.snd) = some mny)
    (hmxy : listMax ((visiblePoints s c).map Prod.snd) = some mxy) :
    syncXYWindowSize s c =
      { s with
        min := (if s.horizontal then ((⌊(mxx + mnx) / 2⌋ : ℤ) : ℚ)
                else ((⌊(mxy + mny) / 2⌋ : ℤ) : ℚ)) - max (mxx - mnx) (mxy - mny) / 2
        max := (if s.horizontal then ((⌊(mxx + mnx) / 2⌋ : ℤ) : ℚ)
                else ((⌊(mxy + mny) / 2⌋ : ℤ) : ℚ)) + max (mxx - mnx) (mxy - mny) / 2 } := by
  unfold syncXYWindowSize
  rw [scanChart_char]
  simp only [hmnx, hmxx, hmny, hmxy]

/-- C1 (counterexample): for the visible points `(0,0)` and `(1,0)` the code
sets the X range to `[-1/2, 1/2]` (its midpoint is `Math.floor(0.5) = 0`),
not to `[0, 1]` as the claim's arithmetic-mean midpoint (`0.5`) demands. -/
theorem c1_counterexample :
    syncXYWindowSize {} { datasets := [{ data := [{ x := some 0, y := some 0 },
        { x := some 1, y := some 0 }] }] } =
      { ({} : Scale) with min := -(1/2 : ℚ), max := 1/2 } ∧
    ¬ syncXYWindowSize {} { datasets := [{ data := [{ x := some 0, y := some 0 },
        { x := some 1, y := some 0 }] }] } =
      { ({} : Scale) with min := ((1:ℚ) + 0) / 2 - max (1 - 0 : ℚ) (0 - 0) / 2
                          max := ((1:ℚ) + 0) / 2 + max (1 - 0 : ℚ) (0 - 0) / 2 } := by
  have h1 : listMin ((visiblePoints ({} : Scale) { datasets := [{ data := [{ x := some 0, y := some 0 },
      { x := some 1, y := some 0 }] }] }).map Prod.fst) = some 0 := by
    decide
  have h2 : listMax ((visiblePoints ({} : Scale) { datasets := [{ data := [{ x := some 0, y := some 0 },
      { x := some 1, y := some 0 }] }] }).map Prod.fst) = some 1 := by
    decide
  have h3 : listMin ((visiblePoints ({} : Scale) { datasets := [{ data := [{ x := some 0, y := some 0 },
      { x := some 1, y := some 0 }] }] }).map Prod.snd) = some 0 := by
    decide
  have h4 : listMax ((visiblePoints ({} : Scale) { datasets := [{ data := [{ x := some 0, y := some 0 },
      { x := some 1, y := some 0 }] }] }).map Prod.snd) = some 0 := by
    decide
  rw [syncXY_eval _ _ 0 1 0 0 h1 h2 h3 h4]
  constructor
  · simp only [Scale.mk.injEq]
    norm_num
  · simp only [Scale.mk.injEq, not_and]
    intro _ _
    norm_num

/-- C1 (amended): for every axis under the joint auto-fit policy, whenever at
least one visible dataset point with finite x and finite y exists,
`syncXYWindowSize` sets the axis's range to `[mid - d/2, mid + d/2]`, where
`d = max(maxX - minX, maxY - minY)` over all visible finite points and `mid`
is `Math.floor` of that axis's own data midpoint (the floor of the arithmetic
mean of that axis's min and max data values) — the floor is the one deviation
from the claim as stated. -/
theorem c1_amended (s : Scale) (c : VChart) (mnx mxx mny mxy : ℚ)
    (hmnx : listMin ((visiblePoints s c).map Prod.fst) = some mnx)
    (hmxx : listMax ((visiblePoints s c).map Prod.fst) = some mxx)
    (hmny : listMin ((visiblePoints s c).map Prod.snd) = some mny)
    (hmxy : listMax ((visiblePoints s c).map Prod.snd) = some mxy) :
    syncXYWindowSize s c =
      { s with
        min := (if s.horizontal then ((⌊(mxx + mnx) / 2⌋ : ℤ) : ℚ)
                else ((⌊(mxy + mny) / 2⌋ : ℤ) : ℚ)) - max (mxx - mnx) (mxy - mny) / 2
        max := (if s.horizontal then ((⌊(mxx + mnx) / 2⌋ : ℤ) : ℚ)
                else ((⌊(mxy + mny) / 2⌋ : ℤ) : ℚ)) + max (mxx - mnx) (mxy - mny) / 2 } :=
  syncXY_eval s c mnx mxx mny mxy hmnx hmxx hmny hmxy

/-- C1 (witness): the claim's own scenario — points `(0,0)` and `(10,4)` give
the X range `[0, 10]` and the Y range `[-3, 7]`. -/
theorem c1_amended_witness :
    listMin ((visiblePoints {} { datasets := [{ data := [{ x := some 0, y := some 0 },
        { x := some 10, y := some 4 }] }] }).map Prod.fst) = some 0 ∧
    syncXYWindowSize {} { datasets := [{ data := [{ x := some 0, y := some 0 },
        { x := some 10, y := some 4 }] }] } = { ({} : Scale) with min := 0, max := 10 } ∧
    syncXYWindowSize { id := "y-axis-0", horizontal := false }
        { datasets := [{ data := [{ x := some 0, y := some 0 },
            { x := some 10, y := some 4 }] }] } =
      { ({ id := "y-axis-0", horizontal := false } : Scale) with min := -3, max := 7 } := by
  refine ⟨by decide, ?_, ?_⟩
  · rw [c1_amended ({} : Scale) _ 0 10 0 4
      (by decide)
      (by decide)
      (by decide)
      (by decide)]
    simp only [Scale.mk.injEq]
    norm_num
  · rw [c1_amended ({ id := "y-axis-0", horizontal := false } : Scale) _ 0 10 0 4
      (by decide)
      (by decide)
      (by decide)
      (by decide)]
    simp only [Scale.mk.injEq]
    norm_num

/-- C4: with the standard single pair of axes (every dataset attached to the
two scale ids), when at least one visible valid point exists, the auto-fit
recomputation gives X and Y ranges of equal width. -/
theorem c4_autofit_equal_widths (sx sy : Scale) (c : VChart)
    (hx : sx.horizontal = true) (hy : sy.horizontal = false)
    (hids : ∀ d ∈ c.datasets, d.xAxisID = sx.id ∧ d.yAxisID = sy.id)
    (hne : visiblePoints sx c ≠ []) :
    (syncXYWindowSize sx c).max - (syncXYWindowSize sx c).min =
      (syncXYWindowSize sy c).max - (syncXYWindowSize sy c).min := by
  have hvp : visiblePoints sy c = visiblePoints sx c := by
    unfold visiblePoints
    have : (c.datasets.filter fun d => d.visible && idMatches sy d) =
        c.datasets.filter fun d => d.visible && idMatches sx d := by
      apply List.filter_congr
      intro d hd
      rcases hids d hd with ⟨h1, h2⟩
      simp [idMatches, hx, hy, h1, h2]
    rw [this]
  have hfst : (visiblePoints sx c).map Prod.fst ≠ [] := by
    intro hEq; exact hne (List.map_eq_nil_iff.mp hEq)
  have hsnd : (visiblePoints sx c).map Prod.snd ≠ [] := by
    intro hEq; exact hne (List.map_eq_nil_iff.mp hEq)
  obtain ⟨mnx, hmnx⟩ := listMin_ne_nil _ hfst
  obtain ⟨mxx, hmxx⟩ := listMax_ne_nil ((visiblePoints sx c).map Prod.fst) hfst
  obtain ⟨mny, hmny⟩ := listMin_ne_nil ((visiblePoints sx c).map Prod.snd) hsnd
  obtain ⟨mxy, hmxy⟩ := listMax_ne_nil ((visiblePoints sx c).map Prod.snd) hsnd
  rw [syncXY_eval sx c mnx mxx mny mxy hmnx hmxx hmny hmxy,
    syncXY_eval sy c mnx mxx mny mxy (hvp ▸ hmnx) (hvp ▸ hmxx) (hvp ▸ hmny) (hvp ▸ hmxy)]
  simp only []
  ring

/-- C4 (witness): equal widths on the concrete two-point example. -/
theorem c4_witness :
    visiblePoints ({} : Scale) { datasets := [{ data := [{ x := some 0, y := some 0 },
        { x := some 10, y := some 4 }] }] } ≠ [] ∧
    (syncXYWindowSize {} { datasets := [{ data := [{ x := some 0, y := some 0 },
        { x := some 10, y := some 4 }] }] }).max -
      (syncXYWindowSize {} { datasets := [{ data := [{ x := some 0, y := some 0 },
          { x := some 10, y := some 4 }] }] }).min =
    (syncXYWindowSize { id := "y-axis-0", horizontal := false }
        { datasets := [{ data := [{ x := some 0, y := some 0 },
            { x := some 10, y := some 4 }] }] }).max -
      (syncXYWindowSize { id := "y-axis-0", horizontal := false }
          { datasets := [{ data := [{ x := some 0, y := some 0 },
              { x := some 10, y := some 4 }] }] }).min :=
  ⟨by decide,
    c4_autofit_equal_widths {} { id := "y-axis-0", horizontal := false } _
      rfl rfl (by decide) (by decide)⟩

/-- C5 (counterexample): with previous range `[0, 5]`, window size `4` and no
configured midpoint, the code floors the previous midpoint `2.5` to `2` and
produces `[0, 4]`; the claim's un-floored midpoint demands `[0.5, 4.5]`. -/
theorem c5_counterexample :
    updateTickWindow { min := 0, max := 5 } 4 .undef =
      { ({ min := 0, max := 5 } : Scale) with min := 0, max := 4 } ∧
    ((0:ℚ) + 5) / 2 - 4 / 2 ≠ (0:ℚ) := by
  constructor
  · simp only [updateTickWindow, Scale.mk.injEq]
    norm_num
  · norm_num

/-- C5 (amended): `updateTickWindow` sets the range to `[m - w/2, m + w/2]`
where `m` is the configured midpoint when it is given and non-zero (a zero
midpoint is falsy in JS and falls back), and otherwise `Math.floor` of the
midpoint of the previous range; consequently the resulting width is always
exactly `w`. -/
theorem c5_amended (s : Scale) (w : ℚ) (mv : JVal) :
    (updateTickWindow s w mv =
      { s with
        min := (match mv with
          | .num q => if q ≠ 0 then q else ((⌊(s.max + s.min) / 2⌋ : ℤ) : ℚ)
          | _ => ((⌊(s.max + s.min) / 2⌋ : ℤ) : ℚ)) - w / 2
        max := (match mv with
          | .num q => if q ≠ 0 then q else ((⌊(s.max + s.min) / 2⌋ : ℤ) : ℚ)
          | _ => ((⌊(s.max + s.min) / 2⌋ : ℤ) : ℚ)) + w / 2 }) ∧
    (updateTickWindow s w mv).max - (updateTickWindow s w mv).min = w := by
  constructor
  · rfl
  · show (_ + w / 2) - (_ - w / 2) = w
    ring

/-- C6: when no visible dataset point with finite x and finite y exists, the
auto-fit recomputation is a no-op: the scale keeps its previous bounds. -/
theorem c6_no_visible_data_noop (s : Scale) (c : VChart)
    (h : visiblePoints s c = []) : syncXYWindowSize s c = s := by
  unfold syncXYWindowSize
  rw [scanChart_char, h]
  rfl

/-- C6 (witness): an invisible dataset with valid points, plus a visible
dataset containing one non-finite point and one hidden point, leaves the
previous bounds `[2, 9]` untouched (in particular they do not collapse to
`[0, 0]`). -/
theorem c6_witness :
    visiblePoints { min := 2, max := 9 }
      { datasets := [{ visible := false, data := [{ x := some 1, y := some 1 }] },
          { data := [{ x := none, y := some 3 }, { x := some 4, y := some 5, hidden := true }] }] } = [] ∧
    syncXYWindowSize { min := 2, max := 9 }
      { datasets := [{ visible := false, data := [{ x := some 1, y := some 1 }] },
          { data := [{ x := none, y := some 3 }, { x := some 4, y := some 5, hidden := true }] }] } =
      { min := 2, max := 9 } :=
  ⟨by decide, c6_no_visible_data_noop _ _ (by decide)⟩

/-! ### Dataset registry and frame update pipeline -/

/-- The mutable chart contents owned by one `ScatterGraph` instance: the
`name2idx` registry (insertion-ordered, unique keys) and the dataset array. -/
structure ChartData where
  name2idx : List (String × Nat) := []
  datasets : List Dataset := []
  deriving DecidableEq, Repr

/-- First-match lookup in the registry (JS object property read). -/
def lookupIdx : List (String × Nat) → String → Option Nat
  | [], _ => none
  | (k0, v0) :: rest, k => if k0 = k then some v0 else lookupIdx rest k

/-- `if (name2idx[name] === undefined) name2idx[name] = datasets.length;
const idx = name2idx[name];` — returns the state and the resolved index. -/
def resolveIdx (st : ChartData) (name : String) : ChartData × Nat :=
  match lookupIdx st.name2idx name with
  | some i => (st, i)
  | none =>
    ({ st with name2idx := st.name2idx ++ [(name, st.datasets.length)] },
      st.datasets.length)

/-- `updateData(idx, name, properties, data)`: push a freshly merged config
when `datasets[idx] === undefined`, otherwise update only `text` and `data`
of the series already stored there. -/
def updateData (st : ChartData) (idx : Nat) (name : String) (props : PropBag)
    (d : JVal) : ChartData :=
  match st.datasets[idx]? with
  | some ds => { st with datasets := st.datasets.set idx (setTextData name d ds) }
  | none => { st with datasets := st.datasets ++ [newConfig name props d] }

/-- `name + '_arrow'`. -/
def arrowNameOf (name : String) : String := name ++ "_arrow"

/-- `'skip_legend_' + name + '_car_bounding_box'`. -/
def carBoxName (name : String) : String := "skip_legend_" ++ name ++ "_car_bounding_box"

/-- The in-place mutation `updateCar` performs on the caller's per-car
properties object before using it as the arrow series config. -/
def mutateCarProps (props : PropBag) : PropBag :=
  bagSet (bagSet (bagSet props "specialMarker" (.str "car")) "borderWidth" (.num 0))
    "pointRadius" (.num 0)

/-- The literal style object `updateCar` builds for the bounding box. -/
def carBoxProps (props : PropBag) : PropBag :=
  [("borderWidth", .num 1), ("pointRadius", .num 0), ("color", bagGet props "color"),
    ("showLine", .boolean true), ("fill", .boolean false), ("lineTension", .num 0)]

/-- The external collaborator `STORE.hmi.calculateCarPolygonPoints`, supplied
as a parameter of the pipeline. -/
abbrev CarPolyFn := Option ℚ → Option ℚ → Option ℚ → List Pt

/-- `updateCar(name, point, properties)`: registers and updates the heading
arrow series and the bounding box series; returns the new chart contents and
the mutated properties bag (the JS code mutates the caller's object). -/
def updateCar (carPoly : CarPolyFn) (st : ChartData) (name : String) (point : Pt)
    (props : PropBag) : ChartData × PropBag :=
  let arrowProps := mutateCarProps props
  let r1 := resolveIdx st (arrowNameOf name)
  let st2 := updateData r1.1 r1.2 (arrowNameOf name) arrowProps (.pts [point])
  let r2 := resolveIdx st2 (carBoxName name)
  let st4 := updateData r2.1 r2.2 (carBoxName name) (carBoxProps arrowProps)
    (.pts (carPoly point.x point.y point.heading))
  (st4, arrowProps)

/-- Per-frame data bundle (`props.data`): `cars`, `lines`, `polygons`. -/
structure DataBundle where
  cars : List (String × Pt) := []
  lines : List (String × JVal) := []
  polygons : Option (List (String × JVal)) := none
  deriving DecidableEq, Repr

/-- Per-frame style bundle (`props.properties`). -/
structure PropBundle where
  cars : List (String × PropBag) := []
  lines : List (String × PropBag) := []
  polygons : List (String × PropBag) := []
  deriving DecidableEq, Repr

/-- One inbound frame (`props`): both bundles may be absent, in which case
the pipeline is a no-op. -/
structure Frame where
  data : Option DataBundle := none
  properties : Option PropBundle := none
  deriving DecidableEq, Repr

/-- `_.get(datasets, 'cars[name]', {})`. -/
def lookupPt : List (String × Pt) → String → Pt
  | [], _ => {}
  | (k0, v0) :: rest, k => if k0 = k then v0 else lookupPt rest k

/-- `_.get(m, '[name]', dflt)` for a JS-object collection of values. -/
def lookupJD : List (String × JVal) → String → JVal → JVal
  | [], _, dflt => dflt
  | (k0, v0) :: rest, k, dflt => if k0 = k then v0 else lookupJD rest k dflt

/-- `_.get(m, '[name]', dflt)` for a JS-object collection of style bags. -/
def lookupBagD : List (String × PropBag) → String → PropBag → PropBag
  | [], _, dflt => dflt
  | (k0, v0) :: rest, k, dflt => if k0 = k then v0 else lookupBagD rest k dflt

/-- `defaultPolygonProperties` from the top of the source file. -/
def defaultPolygonProperties : PropBag :=
  [("color", .str "rgba(255, 0, 0, 0.8)"), ("borderWidth", .num 2),
    ("pointRadius", .num 0), ("fill", .boolean false), ("showLine", .boolean true),
    ("showText", .boolean true), ("cubicInterpolationMode", .str "monotone"),
    ("lineTension", .num 0)]

/-- The cars loop of `updateChart`: processes each entry of
`properties.cars` in order, threading the chart contents and collecting the
mutated per-car bags back into the frame. -/
def processCars (carPoly : CarPolyFn) (dcars : List (String × Pt)) :
    ChartData → List (String × PropBag) → ChartData × List (String × PropBag)
  | st, [] => (st, [])
  | st, (name, bag) :: rest =>
    let point := lookupPt dcars name
    let r := updateCar carPoly st name point bag
    let rr := processCars carPoly dcars r.1 rest
    (rr.1, (name, r.2) :: rr.2)

/-- The lines loop of `updateChart`. -/
def processLines (dlines : List (String × JVal)) :
    ChartData → List (String × PropBag) → ChartData
  | st, [] => st
  | st, (name, bag) :: rest =>
    let r := resolveIdx st name
    let points := lookupJD dlines name (.pts [])
    processLines dlines (updateData r.1 r.2 name bag points) rest

/-- The polygons loop of `updateChart`: iteration is driven by the names
present in `data.polygons`; falsy point values are skipped; the index counter
advances only for rendered polygons. -/
def processPolys (pprops : List (String × PropBag)) :
    ChartData → Nat → List (String × JVal) → ChartData × Nat
  | st, idx, [] => (st, idx)
  | st, idx, (name, v) :: rest =>
    if truthy v then
      let bag := lookupBagD pprops name defaultPolygonProperties
      processPolys pprops (updateData st idx name bag v) (idx + 1) rest
    else processPolys pprops st idx rest

/-- `updateChart(props)`: the guard, the three loops, the trailing splice.
Returns the new chart contents together with the frame as the caller now
sees it (its per-car property bags were mutated in place). -/
def updateChartCD (carPoly : CarPolyFn) (st : ChartData) (f : Frame) :
    ChartData × Frame :=
  match f.data, f.properties with
  | some db, some pb =>
    let rc := processCars carPoly db.cars st pb.cars
    let st1 := processLines db.lines rc.1 pb.lines
    let startIdx := st1.name2idx.length
    let rp :=
      match db.polygons with
      | some polys => processPolys pb.polygons st1 startIdx polys
      | none => (st1, startIdx)
    let st2 := { rp.1 with datasets := rp.1.datasets.take rp.2 }
    (st2, { f with properties := some { pb with cars := rc.2 } })
  | _, _ => (st, f)

/-- Number of polygons rendered by a frame: entries of `data.polygons` whose
point value is truthy. -/
def polyCount (f : Frame) : Nat :=
  match f.data with
  | some db =>
    match db.polygons with
    | some polys => (polys.filter fun nv => truthy nv.2).length
    | none => 0
  | none => 0

/-- The guard of `updateChart`: a frame is accepted when both payloads are
present. -/
def accepted (f : Frame) : Bool := f.data.isSome && f.properties.isSome

/-- The chart contents reached from the initial (empty) registry after a
sequence of frames. -/
def applyFramesCD (carPoly : CarPolyFn) : ChartData → List Frame → ChartData
  | st, [] => st
  | st, f :: fs => applyFramesCD carPoly (updateChartCD carPoly st f).1 fs

/-- The legend filter installed by `initializeCanvas`: labels beginning with
`'skip_'` are excluded from the legend (`legendItem.text.startsWith('skip_')`,
stated on the character list so that it evaluates in the kernel). -/
def skipInLegend (label : String) : Bool := label.toList.take 5 = "skip_".toList

/-! ### generateScatterGraph -/

/-- The `setting` argument of `generateScatterGraph`; a missing object is
`none`, and the inner `properties`/`options` fields are JS values checked
for truthiness. -/
structure GraphSetting where
  title : JVal := .undef
  properties : JVal := .undef
  options : JVal := .undef
  deriving DecidableEq, Repr

/-- The props of the React element `generateScatterGraph` returns. -/
structure GraphElem where
  title : JVal
  options : JVal
  properties : JVal
  dlines : JVal
  dcars : JVal
  dpolys : JVal
  deriving DecidableEq, Repr

/-- The observable outcomes of `generateScatterGraph`: a thrown `TypeError`
(the diagnostic call reads `setting.title` on a nullish `setting` before
anything is logged), the logged-diagnostic-and-`null` path, or a graph
element. -/
inductive GraphOutcome where
  | thrown
  | nullLogged
  | graph (e : GraphElem)
  deriving DecidableEq, Repr

/-- `generateScatterGraph(setting, lineDatasets, carDatasets,
polygonsDatasets)`: the guard is
`!lineDatasets || !setting || !setting.properties || !setting.options`.
When the guard is taken the body runs
`console.error("Graph setting or data not found:", setting.title)`: for a
nullish `setting` the property read `setting.title` throws a `TypeError`
(nothing is logged, `null` is not returned); otherwise the diagnostic is
logged and `null` is returned. -/
def generateScatterGraph (setting : Option GraphSetting)
    (lineDatasets carDatasets polygonsDatasets : JVal) : GraphOutcome :=
  match setting with
  | none => .thrown
  | some s =>
    if truthy lineDatasets && truthy s.properties && truthy s.options then
      .graph { title := s.title, options := s.options, properties := s.properties
               dlines := lineDatasets, dcars := carDatasets, dpolys := polygonsDatasets }
    else .nullLogged

/-! ### Basic bag lemmas -/

theorem bagGet_bagSet_same (b : PropBag) (k : String) (v : JVal) :
    bagGet (bagSet b k v) k = v := by
  induction b with
  | nil => simp [bagSet, bagGet]
  | cons kv rest ih =>
    by_cases h : kv.1 = k
    · simp [bagSet, bagGet, h]
    · simp [bagSet, bagGet, h, ih]

theorem bagGet_bagSet_other (b : PropBag) (k k2 : String) (v : JVal) (h : k ≠ k2) :
    bagGet (bagSet b k v) k2 = bagGet b k2 := by
  induction b with
  | nil => simp [bagSet, bagGet, h]
  | cons kv rest ih =>
    by_cases h0 : kv.1 = k
    · simp [bagSet, bagGet, h0, h]
    · simp [bagSet, bagGet, h0, ih]

/-- `processCars` returns the input car list with every bag mutated. -/
theorem processCars_snd (carPoly : CarPolyFn) (dcars : List (String × Pt))
    (st : ChartData) (bags : List (String × PropBag)) :
    (processCars carPoly dcars st bags).2 =
      bags.map fun nb => (nb.1, mutateCarProps nb.2) := by
  induction bags generalizing st with
  | nil => rfl
  | cons nb rest ih => simp [processCars, ih, updateCar]

/-! ### Claim theorems for the pipeline -/

/-- C2 (counterexample): frame 1 renders polygons `a`, `b` (registry stays
empty), frame 2 registers car `ego`; the two car series are appended after
the stale polygon slots and then removed again by the trailing truncation,
leaving `name2idx` mapping `ego_arrow ↦ 2` and the bounding box to `3`
while the series sequence has length 2 — the registered names have no
corresponding series at their indices. -/
theorem c2_counterexample :
    lookupIdx (applyFramesCD (fun _ _ _ => []) {}
      [{ data := some { polygons := some [("a", .pts [{ x := some 1, y := some 1 }]),
            ("b", .pts [{ x := some 2, y := some 2 }])] }
         properties := some {} },
       { data := some { cars := [("ego", { x := some 0, y := some 0, heading := some 0 })] }
         properties := some { cars := [("ego", [("color", .str "red")])] } }]).name2idx
      "ego_arrow" = some 2 ∧
    (applyFramesCD (fun _ _ _ => []) {}
      [{ data := some { polygons := some [("a", .pts [{ x := some 1, y := some 1 }]),
            ("b", .pts [{ x := some 2, y := some 2 }])] }
         properties := some {} },
       { data := some { cars := [("ego", { x := some 0, y := some 0, heading := some 0 })] }
         properties := some { cars := [("ego", [("color", .str "red")])] } }]).datasets.length
      = 2 := by
  constructor
  · decide
  · decide

/-- C8: starting from the empty chart, one frame with
`data = {cars: {ego: {x:0, y:0, heading:0}}}` and
`properties = {cars: {ego: {color:'red'}}}` produces exactly two series:
`ego_arrow` carrying `specialMarker = 'car'`, and the legend-exempt bounding
box (its name starts with `skip_`) without the marker — for any external
bounding-box geometry function. -/
theorem c8_single_car_frame (carPoly : CarPolyFn) :
    ((updateChartCD carPoly {}
        { data := some { cars := [("ego", { x := some 0, y := some 0, heading := some 0 })] }
          properties := some { cars := [("ego", [("color", .str "red")])] } }).1.datasets.map
      (fun d => (d.label, d.specialMarker)) =
        [(.str "ego_arrow", .str "car"), (.str (carBoxName "ego"), .undef)]) ∧
    skipInLegend (carBoxName "ego") = true ∧ skipInLegend "ego_arrow" = false := by
  refine ⟨?_, by decide, by decide⟩
  rfl

/-- C9 (counterexample): a call with `setting.properties` and
`setting.options` both present but `lineDatasets` missing still logs the
diagnostic and produces no graph, so "only if the properties or options
object is missing" is false; and a missing `setting` object makes the
diagnostic call itself throw (`setting.title` on a nullish object), so "no
exception is raised" is false as well. -/
theorem c9_counterexample :
    generateScatterGraph
      (some { title := .str "t", properties := .str "props", options := .str "opts" })
      .undef .undef .undef = .nullLogged ∧
    truthy (.str "props") = true ∧ truthy (.str "opts") = true ∧
    generateScatterGraph none (.str "lines") .undef .undef = .thrown := by
  refine ⟨by decide, by decide, by decide, by decide⟩

/-- C9 (amended): a `TypeError` is thrown exactly when the `setting` object
is missing (the diagnostic call reads `setting.title` before logging); the
diagnostic is logged with no graph produced exactly when `setting` is
present and `lineDatasets`, `setting.properties` or `setting.options` is
falsy; and a graph element is produced exactly in the remaining case. -/
theorem c9_amended (setting : Option GraphSetting) (l c p : JVal) :
    (generateScatterGraph setting l c p = .thrown ↔ setting = none) ∧
    (generateScatterGraph setting l c p = .nullLogged ↔
      ∃ s, setting = some s ∧
        (truthy l = false ∨ truthy s.properties = false ∨ truthy s.options = false)) ∧
    ((∃ e, generateScatterGraph setting l c p = .graph e) ↔
      ∃ s, setting = some s ∧ truthy l = true ∧ truthy s.properties = true ∧
        truthy s.options = true) := by
  cases setting with
  | none => simp [generateScatterGraph]
  | some s =>
    by_cases hl : truthy l <;> by_cases hp : truthy s.properties <;>
      by_cases ho : truthy s.options <;>
      simp [generateScatterGraph, hl, hp, ho]

/-- C10: `updateCar` mutates the caller-supplied per-car properties object,
setting `specialMarker = 'car'`, `borderWidth = 0` and `pointRadius = 0` on
it (in this embedding the mutation is threaded: the mutated bag is returned
and is the very bag used as the arrow series config); at the frame level the
inbound properties bundle comes back with every car bag so altered. -/
theorem c10_updateCar_mutates_props (carPoly : CarPolyFn) (st : ChartData)
    (name : String) (point : Pt) (props : PropBag) (db : DataBundle) (pb : PropBundle) :
    (updateCar carPoly st name point props).2 = mutateCarProps props ∧
    bagGet (mutateCarProps props) "specialMarker" = .str "car" ∧
    bagGet (mutateCarProps props) "borderWidth" = .num 0 ∧
    bagGet (mutateCarProps props) "pointRadius" = .num 0 ∧
    ((updateChartCD carPoly st { data := some db, properties := some pb }).2).properties =
      some { pb with cars := pb.cars.map fun nb => (nb.1, mutateCarProps nb.2) } := by
  refine ⟨rfl, ?_, ?_, ?_, ?_⟩
  · unfold mutateCarProps
    rw [bagGet_bagSet_other _ _ _ _ (by decide), bagGet_bagSet_other _ _ _ _ (by decide),
      bagGet_bagSet_same]
  · unfold mutateCarProps
    rw [bagGet_bagSet_other _ _ _ _ (by decide), bagGet_bagSet_same]
  · unfold mutateCarProps
    rw [bagGet_bagSet_same]
  · simp [updateChartCD, processCars_snd]

/-! ### Basic facts about the registry operations -/

theorem updateData_name2idx (st : ChartData) (idx : Nat) (n : String) (p : PropBag)
    (d : JVal) : (updateData st idx n p d).name2idx = st.name2idx := by
  unfold updateData
  cases st.datasets[idx]? <;> rfl

theorem updateData_length (st : ChartData) (idx : Nat) (n : String) (p : PropBag)
    (d : JVal) :
    (updateData st idx n p d).datasets.length =
      if idx < st.datasets.length then st.datasets.length
      else st.datasets.length + 1 := by
  unfold updateData
  by_cases h : idx < st.datasets.length
  · rw [List.getElem?_eq_getElem h]
    simp [h]
  · rw [List.getElem?_eq_none (by omega)]
    simp [h]

theorem updateData_length_ge (st : ChartData) (idx : Nat) (n : String) (p : PropBag)
    (d : JVal) :
    st.datasets.length ≤ (updateData st idx n p d).datasets.length := by
  rw [updateData_length]
  by_cases h : idx < st.datasets.length <;> simp [h]

theorem resolveIdx_datasets (st : ChartData) (n : String) :
    (resolveIdx st n).1.datasets = st.datasets := by
  unfold resolveIdx
  cases lookupIdx st.name2idx n <;> rfl

theorem resolveIdx_name2idx (st : ChartData) (n : String) :
    (resolveIdx st n).1.name2idx =
      match lookupIdx st.name2idx n with
      | some _ => st.name2idx
      | none => st.name2idx ++ [(n, st.datasets.length)] := by
  unfold resolveIdx
  cases lookupIdx st.name2idx n <;> rfl

/-- One resolve-then-update step (shared by cars and lines) preserves the
basic length invariant `|name2idx| ≤ |datasets|`. -/
theorem resolveUpdate_Hle (st : ChartData) (n : String) (p : PropBag) (d : JVal)
    (H : st.name2idx.length ≤ st.datasets.length) :
    (updateData (resolveIdx st n).1 (resolveIdx st n).2 n p d).name2idx.length ≤
      (updateData (resolveIdx st n).1 (resolveIdx st n).2 n p d).datasets.length ∧
    st.datasets.length ≤
      (updateData (resolveIdx st n).1 (resolveIdx st n).2 n p d).datasets.length := by
  unfold resolveIdx
  cases h : lookupIdx st.name2idx n with
  | some i =>
    constructor
    · rw [updateData_name2idx, updateData_length]
      by_cases hi : i < st.datasets.length <;> simp [hi] <;> omega
    · exact updateData_length_ge _ _ _ _ _
  | none =>
    constructor
    · rw [updateData_name2idx, updateData_length]
      simp
      omega
    · have := updateData_length_ge
        { st with name2idx := st.name2idx ++ [(n, st.datasets.length)] }
        st.datasets.length n p d
      simpa using this

/-- The basic length invariant: the registry never has more entries than the
series sequence has slots. -/
def lenInv (st : ChartData) : Prop := st.name2idx.length ≤ st.datasets.length

theorem updateCar_Hle (carPoly : CarPolyFn) (st : ChartData) (n : String) (pt : Pt)
    (bag : PropBag) (H : lenInv st) :
    lenInv (updateCar carPoly st n pt bag).1 ∧
      st.datasets.length ≤ (updateCar carPoly st n pt bag).1.datasets.length := by
  obtain ⟨H2, L2⟩ := resolveUpdate_Hle st (arrowNameOf n) (mutateCarProps bag)
    (.pts [pt]) H
  obtain ⟨H4, L4⟩ := resolveUpdate_Hle
    (updateData (resolveIdx st (arrowNameOf n)).1 (resolveIdx st (arrowNameOf n)).2
      (arrowNameOf n) (mutateCarProps bag) (.pts [pt]))
    (carBoxName n) (carBoxProps (mutateCarProps bag))
    (.pts (carPoly pt.x pt.y pt.heading)) H2
  exact ⟨H4, le_trans L2 L4⟩

theorem processCars_Hle (carPoly : CarPolyFn) (dcars : List (String × Pt))
    (st : ChartData) (bags : List (String × PropBag)) (H : lenInv st) :
    lenInv (processCars carPoly dcars st bags).1 ∧
      st.datasets.length ≤ (processCars carPoly dcars st bags).1.datasets.length := by
  induction bags generalizing st with
  | nil => exact ⟨H, le_refl _⟩
  | cons nb rest ih =>
    obtain ⟨H2, L2⟩ := updateCar_Hle carPoly st nb.1 (lookupPt dcars nb.1) nb.2 H
    obtain ⟨H3, L3⟩ := ih _ H2
    exact ⟨H3, le_trans L2 L3⟩

theorem processLines_Hle (dlines : List (String × JVal)) (st : ChartData)
    (bags : List (String × PropBag)) (H : lenInv st) :
    lenInv (processLines dlines st bags) ∧
      st.datasets.length ≤ (processLines dlines st bags).datasets.length := by
  induction bags generalizing st with
  | nil => exact ⟨H, le_refl _⟩
  | cons nb rest ih =>
    obtain ⟨H2, L2⟩ := resolveUpdate_Hle st nb.1 nb.2 (lookupJD dlines nb.1 (.pts [])) H
    obtain ⟨H3, L3⟩ := ih _ H2
    exact ⟨H3, le_trans L2 L3⟩

theorem processPolys_spec (pprops : List (String × PropBag)) (polys : List (String × JVal))
    (st : ChartData) (i : Nat) (Hi : i ≤ st.datasets.length) :
    (processPolys pprops st i polys).1.name2idx = st.name2idx ∧
    (processPolys pprops st i polys).2 = i + (polys.filter fun nv => truthy nv.2).length ∧
    (processPolys pprops st i polys).2 ≤ (processPolys pprops st i polys).1.datasets.length := by
  induction polys generalizing st i with
  | nil => simpa [processPolys] using Hi
  | cons nv rest ih =>
    by_cases ht : truthy nv.2
    · have Hi2 : i + 1 ≤
          (updateData st i nv.1 (lookupBagD pprops nv.1 defaultPolygonProperties)
            nv.2).datasets.length := by
        rw [updateData_length]
        by_cases h : i < st.datasets.length <;> simp [h] <;> omega
      obtain ⟨h1, h2, h3⟩ := ih _ _ Hi2
      refine ⟨?_, ?_, ?_⟩
      · rw [processPolys, if_pos ht, h1, updateData_name2idx]
      · rw [processPolys, if_pos ht, h2, List.filter_cons, if_pos ht]
        simp
        omega
      · rw [processPolys, if_pos ht]
        exact h3
    · obtain ⟨h1, h2, h3⟩ := ih st i Hi
      refine ⟨?_, ?_, ?_⟩
      · rw [processPolys, if_neg ht, h1]
      · rw [processPolys, if_neg ht, h2, List.filter_cons, if_neg ht]
      · rw [processPolys, if_neg ht]
        exact h3

/-- After an accepted frame is fully processed and truncated, the series
sequence length is exactly the registry size plus the number of rendered
polygons. -/
theorem updateChart_post (carPoly : CarPolyFn) (st : ChartData) (f : Frame)
    (db : DataBundle) (pb : PropBundle) (hd : f.data = some db)
    (hp : f.properties = some pb) (H : lenInv st) :
    (updateChartCD carPoly st f).1.datasets.length =
      (updateChartCD carPoly st f).1.name2idx.length + polyCount f ∧
    lenInv (updateChartCD carPoly st f).1 := by
  have Hc := processCars_Hle carPoly db.cars st pb.cars H
  have Hl := processLines_Hle db.lines (processCars carPoly db.cars st pb.cars).1 pb.lines Hc.1
  set st1 := processLines db.lines (processCars carPoly db.cars st pb.cars).1 pb.lines with hst1
  have hL1 : st1.name2idx.length ≤ st1.datasets.length := Hl.1
  unfold updateChartCD
  rw [hd, hp]
  cases hpoly : db.polygons with
  | none =>
    have hq0 : polyCount f = 0 := by
      simp [polyCount, hd, hpoly]
    simp only [hpoly, ← hst1, hq0]
    constructor
    · simp only [List.length_take]
      omega
    · unfold lenInv
      simp only [List.length_take]
      omega
  | some polys =>
    have hq : polyCount f = (polys.filter fun nv => truthy nv.2).length := by
      simp [polyCount, hd, hpoly]
    obtain ⟨h1, h2, h3⟩ := processPolys_spec pb.polygons polys st1 st1.name2idx.length Hl.1
    simp only [hpoly, ← hst1, hq]
    constructor
    · simp only [List.length_take, h1, h2]
      omega
    · unfold lenInv
      simp only [List.length_take, h1, h2]
      omega

theorem updateChart_lenInv (carPoly : CarPolyFn) (st : ChartData) (f : Frame)
    (H : lenInv st) : lenInv (updateChartCD carPoly st f).1 := by
  cases hd : f.data with
  | none =>
    unfold updateChartCD
    rw [hd]
    exact H
  | some db =>
    cases hp : f.properties with
    | none =>
      unfold updateChartCD
      rw [hd, hp]
      exact H
    | some pb => exact (updateChart_post carPoly st f db pb hd hp H).2

theorem applyFrames_lenInv (carPoly : CarPolyFn) (st : ChartData) (fs : List Frame)
    (H : lenInv st) : lenInv (applyFramesCD carPoly st fs) := by
  induction fs generalizing st with
  | nil => exact H
  | cons f rest ih => exact ih _ (updateChart_lenInv carPoly st f H)

theorem applyFramesCD_append (carPoly : CarPolyFn) (st : ChartData)
    (fs1 fs2 : List Frame) :
    applyFramesCD carPoly st (fs1 ++ fs2) =
      applyFramesCD carPoly (applyFramesCD carPoly st fs1) fs2 := by
  induction fs1 generalizing st with
  | nil => rfl
  | cons f rest ih => simp [applyFramesCD, ih]

/-! ### Name bookkeeping for the registry -/

theorem arrowNameOf_inj {a b : String} (h : arrowNameOf a = arrowNameOf b) : a = b := by
  have h2 : a.data ++ "_arrow".data = b.data ++ "_arrow".data := by
    have := congrArg String.data h
    simpa [arrowNameOf, String.data_append] using this
  have h3 := List.append_cancel_right h2
  cases a; cases b; simp_all

theorem carBoxName_inj {a b : String} (h : carBoxName a = carBoxName b) : a = b := by
  have h2 : "skip_legend_".data ++ (a.data ++ "_car_bounding_box".data) =
      "skip_legend_".data ++ (b.data ++ "_car_bounding_box".data) := by
    have := congrArg String.data h
    simpa [carBoxName, String.data_append] using this
  have h3 := List.append_cancel_right (List.append_cancel_left h2)
  cases a; cases b; simp_all

theorem arrowNameOf_ne_carBoxName (a b : String) : arrowNameOf a ≠ carBoxName b := by
  intro h
  have h2 := congrArg (fun s => s.data.reverse.head?) h
  simp [arrowNameOf, carBoxName, String.data_append, List.reverse_append] at h2

/-- The names of the cars a frame processes (empty when the guard rejects). -/
def frameCarNames (f : Frame) : List String :=
  match f.data, f.properties with
  | some _, some pb => pb.cars.map Prod.fst
  | _, _ => []

/-- The names of the lines a frame processes. -/
def frameLineNames (f : Frame) : List String :=
  match f.data, f.properties with
  | some _, some pb => pb.lines.map Prod.fst
  | _, _ => []

def allCarNames (fs : List Frame) : List String := fs.flatMap frameCarNames

def allLineNames (fs : List Frame) : List String := fs.flatMap frameLineNames

/-- Record a name as seen (dedup, insertion order). -/
def seenAdd (acc : List String) (n : String) : List String :=
  if n ∈ acc then acc else acc ++ [n]

/-- The distinct car names ever registered by a frame sequence. -/
def seenCars (fs : List Frame) : List String :=
  fs.foldl (fun acc f => (frameCarNames f).foldl seenAdd acc) []

/-- The distinct line names ever registered by a frame sequence. -/
def seenLines (fs : List Frame) : List String :=
  fs.foldl (fun acc f => (frameLineNames f).foldl seenAdd acc) []

/-- Key-level effect of an assign-if-absent registration. -/
def keyAdd (ks : List String) (n : String) : List String :=
  if n ∈ ks then ks else ks ++ [n]

theorem mem_keyAdd (ks : List String) (n x : String) :
    x ∈ keyAdd ks n ↔ (x ∈ ks ∨ x = n) := by
  unfold keyAdd
  by_cases h : n ∈ ks
  · simp only [if_pos h]
    exact ⟨Or.inl, fun hx => hx.elim id fun he => he ▸ h⟩
  · simp [if_neg h]

theorem keyAdd_length (ks : List String) (n : String) :
    (keyAdd ks n).length = if n ∈ ks then ks.length else ks.length + 1 := by
  unfold keyAdd
  by_cases h : n ∈ ks <;> simp [h]

theorem mem_seenAdd (acc : List String) (n x : String) :
    x ∈ seenAdd acc n ↔ (x ∈ acc ∨ x = n) := by
  unfold seenAdd
  by_cases h : n ∈ acc
  · simp only [if_pos h]
    exact ⟨Or.inl, fun hx => hx.elim id fun he => he ▸ h⟩
  · simp [if_neg h]

theorem seenAdd_length (acc : List String) (n : String) :
    (seenAdd acc n).length = if n ∈ acc then acc.length else acc.length + 1 := by
  unfold seenAdd
  by_cases h : n ∈ acc <;> simp [h]

theorem lookupIdx_eq_none_iff (m : List (String × Nat)) (k : String) :
    lookupIdx m k = none ↔ k ∉ m.map Prod.fst := by
  induction m with
  | nil => simp [lookupIdx]
  | cons kv rest ih =>
    by_cases h : kv.1 = k
    · simp [lookupIdx, h]
    · simp [lookupIdx, h, ih, Ne.symm h]

theorem resolveIdx_keys (st : ChartData) (n : String) :
    (resolveIdx st n).1.name2idx.map Prod.fst = keyAdd (st.name2idx.map Prod.fst) n := by
  unfold resolveIdx
  cases h : lookupIdx st.name2idx n with
  | some i =>
    have hmem : n ∈ st.name2idx.map Prod.fst := by
      by_contra hn
      have h0 := (lookupIdx_eq_none_iff st.name2idx n).mpr hn
      rw [h] at h0
      exact Option.noConfusion h0
    show st.name2idx.map Prod.fst = keyAdd (st.name2idx.map Prod.fst) n
    unfold keyAdd
    rw [if_pos hmem]
  | none =>
    have hmem : n ∉ st.name2idx.map Prod.fst := (lookupIdx_eq_none_iff _ _).mp h
    show (st.name2idx ++ [(n, st.datasets.length)]).map Prod.fst = _
    unfold keyAdd
    rw [if_neg hmem]
    simp

theorem updateCar_keys (carPoly : CarPolyFn) (st : ChartData) (n : String) (pt : Pt)
    (bag : PropBag) :
    (updateCar carPoly st n pt bag).1.name2idx.map Prod.fst =
      keyAdd (keyAdd (st.name2idx.map Prod.fst) (arrowNameOf n)) (carBoxName n) := by
  unfold updateCar
  simp only [updateData_name2idx]
  rw [resolveIdx_keys, updateData_name2idx, resolveIdx_keys]

theorem processCars_keys2 (carPoly : CarPolyFn) (dcars : List (String × Pt))
    (st : ChartData) (bags : List (String × PropBag)) :
    (processCars carPoly dcars st bags).1.name2idx.map Prod.fst =
      (bags.map Prod.fst).foldl
        (fun ks n => keyAdd (keyAdd ks (arrowNameOf n)) (carBoxName n))
        (st.name2idx.map Prod.fst) := by
  induction bags generalizing st with
  | nil => rfl
  | cons nb rest ih =>
    show (processCars carPoly dcars (updateCar carPoly st nb.1 (lookupPt dcars nb.1) nb.2).1
        rest).1.name2idx.map Prod.fst = _
    rw [ih, updateCar_keys]
    rfl

theorem processLines_keys (dlines : List (String × JVal)) (st : ChartData)
    (bags : List (String × PropBag)) :
    (processLines dlines st bags).name2idx.map Prod.fst =
      (bags.map Prod.fst).foldl keyAdd (st.name2idx.map Prod.fst) := by
  induction bags generalizing st with
  | nil => rfl
  | cons nb rest ih =>
    show (processLines dlines (updateData (resolveIdx st nb.1).1 (resolveIdx st nb.1).2
      nb.1 nb.2 (lookupJD dlines nb.1 (.pts []))) rest).name2idx.map Prod.fst = _
    rw [ih, updateData_name2idx, resolveIdx_keys]
    rfl

theorem processPolys_name2idx (pprops : List (String × PropBag))
    (polys : List (String × JVal)) (st : ChartData) (i : Nat) :
    (processPolys pprops st i polys).1.name2idx = st.name2idx := by
  induction polys generalizing st i with
  | nil => rfl
  | cons nv rest ih =>
    by_cases ht : truthy nv.2
    · rw [processPolys, if_pos ht, ih, updateData_name2idx]
    · rw [processPolys, if_neg ht, ih]

/-- Unfolding of `updateChartCD` on an accepted frame. -/
theorem updateChartCD_accepted (carPoly : CarPolyFn) (st : ChartData) (f : Frame)
    (db : DataBundle) (pb : PropBundle) (hd : f.data = some db)
    (hp : f.properties = some pb) :
    updateChartCD carPoly st f =
      (let rc := processCars carPoly db.cars st pb.cars
       let st1 := processLines db.lines rc.1 pb.lines
       let rp :=
         match db.polygons with
         | some polys => processPolys pb.polygons st1 st1.name2idx.length polys
         | none => (st1, st1.name2idx.length)
       ({ rp.1 with datasets := rp.1.datasets.take rp.2 },
         { f with properties := some { pb with cars := rc.2 } })) := by
  unfold updateChartCD
  rw [hd, hp]

/-- Key-level effect of one frame on the registry. -/
theorem updateChart_keys (carPoly : CarPolyFn) (st : ChartData) (f : Frame) :
    (updateChartCD carPoly st f).1.name2idx.map Prod.fst =
      (frameLineNames f).foldl keyAdd
        ((frameCarNames f).foldl
          (fun ks n => keyAdd (keyAdd ks (arrowNameOf n)) (carBoxName n))
          (st.name2idx.map Prod.fst)) := by
  cases hd : f.data with
  | none =>
    cases hp : f.properties with
    | none => simp [updateChartCD, frameCarNames, frameLineNames, hd, hp]
    | some pb => simp [updateChartCD, frameCarNames, frameLineNames, hd, hp]
  | some db =>
    cases hp : f.properties with
    | none => simp [updateChartCD, frameCarNames, frameLineNames, hd, hp]
    | some pb =>
      rw [updateChartCD_accepted carPoly st f db pb hd hp]
      unfold frameCarNames frameLineNames
      rw [hd, hp]
      cases hpoly : db.polygons with
      | none =>
        show (processLines db.lines (processCars carPoly db.cars st pb.cars).1
            pb.lines).name2idx.map Prod.fst = _
        rw [processLines_keys, processCars_keys2]
      | some polys =>
        show (processPolys pb.polygons
            (processLines db.lines (processCars carPoly db.cars st pb.cars).1 pb.lines)
            (processLines db.lines (processCars carPoly db.cars st pb.cars).1
              pb.lines).name2idx.length polys).1.name2idx.map Prod.fst = _
        rw [processPolys_name2idx, processLines_keys, processCars_keys2]

/-- Correspondence between the registry keys and the names seen so far:
per relevant car name, both derived keys are present iff the car was seen;
per relevant line name, the key is present iff the line was seen; and the key
count is `2·cars + lines`. -/
def KeysInvK (ks SC SL AC AL : List String) : Prop :=
  (∀ c ∈ AC, ((arrowNameOf c ∈ ks) ↔ c ∈ SC) ∧ ((carBoxName c ∈ ks) ↔ c ∈ SC)) ∧
  (∀ l ∈ AL, ((l ∈ ks) ↔ l ∈ SL)) ∧
  ks.length = 2 * SC.length + SL.length

/-- No line name collides with a derived car name (the one naming discipline
the length formula of the spec needs; it holds for all real frames). -/
def crossSafe (AC AL : List String) : Prop :=
  ∀ c ∈ AC, ∀ l ∈ AL, arrowNameOf c ≠ l ∧ carBoxName c ≠ l

theorem keyAdd2_inv (ks SC SL AC AL : List String) (c : String) (hc : c ∈ AC)
    (hsafe : crossSafe AC AL) (hInv : KeysInvK ks SC SL AC AL) :
    KeysInvK (keyAdd (keyAdd ks (arrowNameOf c)) (carBoxName c)) (seenAdd SC c) SL AC AL := by
  obtain ⟨hA, hL, hlen⟩ := hInv
  refine ⟨?_, ?_, ?_⟩
  · intro c2 hc2
    constructor
    · rw [mem_keyAdd, mem_keyAdd, mem_seenAdd]
      constructor
      · rintro ((h | h) | h)
        · exact Or.inl ((hA c2 hc2).1.mp h)
        · exact Or.inr (arrowNameOf_inj h)
        · exact absurd h (arrowNameOf_ne_carBoxName c2 c)
      · rintro (h | rfl)
        · exact Or.inl (Or.inl ((hA c2 hc2).1.mpr h))
        · exact Or.inl (Or.inr rfl)
    · rw [mem_keyAdd, mem_keyAdd, mem_seenAdd]
      constructor
      · rintro ((h | h) | h)
        · exact Or.inl ((hA c2 hc2).2.mp h)
        · exact absurd h.symm (arrowNameOf_ne_carBoxName c c2)
        · exact Or.inr (carBoxName_inj h)
      · rintro (h | rfl)
        · exact Or.inl (Or.inl ((hA c2 hc2).2.mpr h))
        · exact Or.inr rfl
  · intro l hl
    rw [mem_keyAdd, mem_keyAdd]
    constructor
    · rintro ((h | h) | h)
      · exact (hL l hl).mp h
      · exact absurd h.symm (hsafe c hc l hl).1
      · exact absurd h.symm (hsafe c hc l hl).2
    · intro h
      exact Or.inl (Or.inl ((hL l hl).mpr h))
  · by_cases hmem : c ∈ SC
    · have ha : arrowNameOf c ∈ ks := (hA c hc).1.mpr hmem
      have hb : carBoxName c ∈ ks := (hA c hc).2.mpr hmem
      have hb2 : carBoxName c ∈ keyAdd ks (arrowNameOf c) := (mem_keyAdd _ _ _).mpr (Or.inl hb)
      rw [keyAdd_length, if_pos hb2, keyAdd_length, if_pos ha, seenAdd_length, if_pos hmem]
      exact hlen
    · have ha : arrowNameOf c ∉ ks := fun h => hmem ((hA c hc).1.mp h)
      have hb2 : carBoxName c ∉ keyAdd ks (arrowNameOf c) := by
        rw [mem_keyAdd]
        rintro (h | h)
        · exact hmem ((hA c hc).2.mp h)
        · exact arrowNameOf_ne_carBoxName c c h.symm
      rw [keyAdd_length, if_neg hb2, keyAdd_length, if_neg ha, seenAdd_length, if_neg hmem]
      omega

theorem keyAddLine_inv (ks SC SL AC AL : List String) (l : String) (hl : l ∈ AL)
    (hsafe : crossSafe AC AL) (hInv : KeysInvK ks SC SL AC AL) :
    KeysInvK (keyAdd ks l) SC (seenAdd SL l) AC AL := by
  obtain ⟨hA, hL, hlen⟩ := hInv
  refine ⟨?_, ?_, ?_⟩
  · intro c hc
    constructor
    · rw [mem_keyAdd]
      constructor
      · rintro (h | h)
        · exact (hA c hc).1.mp h
        · exact absurd h (hsafe c hc l hl).1
      · intro h
        exact Or.inl ((hA c hc).1.mpr h)
    · rw [mem_keyAdd]
      constructor
      · rintro (h | h)
        · exact (hA c hc).2.mp h
        · exact absurd h (hsafe c hc l hl).2
      · intro h
        exact Or.inl ((hA c hc).2.mpr h)
  · intro l2 hl2
    rw [mem_keyAdd, mem_seenAdd]
    constructor
    · rintro (h | h)
      · exact Or.inl ((hL l2 hl2).mp h)
      · exact Or.inr h
    · rintro (h | rfl)
      · exact Or.inl ((hL l2 hl2).mpr h)
      · exact Or.inr rfl
  · by_cases hmem : l ∈ SL
    · rw [keyAdd_length, if_pos ((hL l hl).mpr hmem), seenAdd_length, if_pos hmem]
      exact hlen
    · rw [keyAdd_length, if_neg (fun h => hmem ((hL l hl).mp h)), seenAdd_length,
        if_neg hmem]
      omega

theorem carsFold_inv (names : List String) (ks SC SL AC AL : List String)
    (hnames : ∀ n ∈ names, n ∈ AC) (hsafe : crossSafe AC AL)
    (hInv : KeysInvK ks SC SL AC AL) :
    KeysInvK (names.foldl (fun ks n => keyAdd (keyAdd ks (arrowNameOf n)) (carBoxName n)) ks)
      (names.foldl seenAdd SC) SL AC AL := by
  induction names generalizing ks SC with
  | nil => exact hInv
  | cons n rest ih =>
    exact ih _ _ (fun m hm => hnames m (List.mem_cons_of_mem _ hm))
      (keyAdd2_inv ks SC SL AC AL n (hnames n (List.mem_cons_self _ _)) hsafe hInv)

theorem linesFold_inv (names : List String) (ks SC SL AC AL : List String)
    (hnames : ∀ n ∈ names, n ∈ AL) (hsafe : crossSafe AC AL)
    (hInv : KeysInvK ks SC SL AC AL) :
    KeysInvK (names.foldl keyAdd ks) SC (names.foldl seenAdd SL) AC AL := by
  induction names generalizing ks SL with
  | nil => exact hInv
  | cons n rest ih =>
    exact ih _ _ (fun m hm => hnames m (List.mem_cons_of_mem _ hm))
      (keyAddLine_inv ks SC SL AC AL n (hnames n (List.mem_cons_self _ _)) hsafe hInv)

theorem applyFrames_keysInv (carPoly : CarPolyFn) (fs : List Frame) (st : ChartData)
    (SC SL AC AL : List String)
    (hAC : ∀ f ∈ fs, ∀ n ∈ frameCarNames f, n ∈ AC)
    (hAL : ∀ f ∈ fs, ∀ n ∈ frameLineNames f, n ∈ AL)
    (hsafe : crossSafe AC AL)
    (hInv : KeysInvK (st.name2idx.map Prod.fst) SC SL AC AL) :
    KeysInvK ((applyFramesCD carPoly st fs).name2idx.map Prod.fst)
      (fs.foldl (fun acc f => (frameCarNames f).foldl seenAdd acc) SC)
      (fs.foldl (fun acc f => (frameLineNames f).foldl seenAdd acc) SL) AC AL := by
  induction fs generalizing st SC SL with
  | nil => exact hInv
  | cons f rest ih =>
    have h1 := carsFold_inv (frameCarNames f) _ SC SL AC AL
      (hAC f (List.mem_cons_self _ _)) hsafe hInv
    have h2 := linesFold_inv (frameLineNames f) _ _ SL AC AL
      (hAL f (List.mem_cons_self _ _)) hsafe h1
    have hk := updateChart_keys carPoly st f
    refine ih (updateChartCD carPoly st f).1 _ _
      (fun f2 hf2 => hAC f2 (List.mem_cons_of_mem _ hf2))
      (fun f2 hf2 => hAL f2 (List.mem_cons_of_mem _ hf2)) ?_
    rw [hk]
    exact h2

/-- C3: after every accepted frame, the series-sequence length equals twice
the number of distinct car names ever registered, plus the number of
distinct line names ever registered, plus the number of polygons rendered by
the current frame — provided no line name collides with a derived car name
(arrow or bounding-box), which holds for all real configurations. -/
theorem c3_series_length (carPoly : CarPolyFn) (fs : List Frame) (f : Frame)
    (db : DataBundle) (pb : PropBundle) (hd : f.data = some db)
    (hp : f.properties = some pb)
    (hsafe : crossSafe (allCarNames (fs ++ [f])) (allLineNames (fs ++ [f]))) :
    (applyFramesCD carPoly {} (fs ++ [f])).datasets.length =
      2 * (seenCars (fs ++ [f])).length + (seenLines (fs ++ [f])).length + polyCount f := by
  have hbase : KeysInvK ((ChartData.name2idx {}).map Prod.fst) [] []
      (allCarNames (fs ++ [f])) (allLineNames (fs ++ [f])) := by
    refine ⟨fun c _ => ⟨by simp, by simp⟩, fun l _ => by simp, by simp⟩
  have hInv := applyFrames_keysInv carPoly (fs ++ [f]) {} [] []
    (allCarNames (fs ++ [f])) (allLineNames (fs ++ [f]))
    (fun f2 hf2 n hn => List.mem_flatMap.mpr ⟨f2, hf2, hn⟩)
    (fun f2 hf2 n hn => List.mem_flatMap.mpr ⟨f2, hf2, hn⟩)
    hsafe hbase
  have hkeys := hInv.2.2
  have hlenInv : lenInv (applyFramesCD carPoly {} fs) :=
    applyFrames_lenInv carPoly {} fs (by simp [lenInv])
  have hpost := (updateChart_post carPoly (applyFramesCD carPoly {} fs) f db pb hd hp
    hlenInv).1
  have hsplit : applyFramesCD carPoly {} (fs ++ [f]) =
      (updateChartCD carPoly (applyFramesCD carPoly {} fs) f).1 := by
    rw [applyFramesCD_append]
    rfl
  rw [hsplit] at hkeys ⊢
  rw [hpost]
  have hmap : ((updateChartCD carPoly (applyFramesCD carPoly {} fs) f).1.name2idx.map
      Prod.fst).length =
      (updateChartCD carPoly (applyFramesCD carPoly {} fs) f).1.name2idx.length := by
    rw [List.length_map]
  rw [← hmap, hkeys]
  rfl

/-- First witness frame: car `ego` plus polygons `p`, `q`. -/
abbrev c3f1 : Frame :=
  { data := some
      { cars := [("ego", { x := some 0, y := some 0, heading := some 0 })],
        polygons := some [("p", .pts [{ x := some 1, y := some 1 }]),
          ("q", .pts [{ x := some 2, y := some 2 }])] },
    properties := some { cars := [("ego", [("color", .str "red")])] } }

/-- Second witness frame: car `ego`, line `lane`, polygon `p`. -/
abbrev c3f2 : Frame :=
  { data := some
      { cars := [("ego", { x := some 3, y := some 4, heading := some 1 })],
        lines := [("lane", .pts [{ x := some 7, y := some 8 }])],
        polygons := some [("p", .pts [{ x := some 9, y := some 9 }])] },
    properties := some
      { cars := [("ego", [("color", .str "red")])],
        lines := [("lane", [("color", .str "blue")])] } }

/-- C3 (witness): a two-frame run — a car plus two polygons, then the same
car, a line and one polygon — gives `2·1 + 1 + 1 = 4` series. -/
theorem c3_witness :
    crossSafe (allCarNames ([c3f1] ++ [c3f2])) (allLineNames ([c3f1] ++ [c3f2])) ∧
    (applyFramesCD (fun _ _ _ => [{ x := some 5, y := some 5 }]) {}
      ([c3f1] ++ [c3f2])).datasets.length =
      2 * (seenCars ([c3f1] ++ [c3f2])).length + (seenLines ([c3f1] ++ [c3f2])).length +
        polyCount c3f2 :=
  ⟨by unfold crossSafe; decide,
    c3_series_length (fun _ _ _ => [{ x := some 5, y := some 5 }]) [c3f1] c3f2 _ _
      rfl rfl (by unfold crossSafe; decide)⟩

/-! ### The registry invariant (C2) -/

/-- Healthy registry: the mapped indices are exactly `0 .. k-1` in
registration order, every index has a series slot, and the series at a
name's index is the one created for that name (its `label` is the name). -/
def RegInv (st : ChartData) : Prop :=
  st.name2idx.map Prod.snd = List.range st.name2idx.length ∧
  st.name2idx.length ≤ st.datasets.length ∧
  ∀ n i, (n, i) ∈ st.name2idx → (st.datasets[i]?).map Dataset.label = some (.str n)

theorem lookupIdx_mem (m : List (String × Nat)) (k : String) (i : Nat)
    (h : lookupIdx m k = some i) : (k, i) ∈ m := by
  induction m with
  | nil => exact Option.noConfusion h
  | cons kv rest ih =>
    by_cases hk : kv.1 = k
    · rw [lookupIdx, if_pos hk] at h
      cases h
      cases kv with
      | mk k1 v1 =>
        cases hk
        exact List.mem_cons_self _ _
    · rw [lookupIdx, if_neg hk] at h
      exact List.mem_cons_of_mem _ (ih h)

theorem mem_keys_lookup (m : List (String × Nat)) (k : String)
    (h : k ∈ m.map Prod.fst) : ∃ i, lookupIdx m k = some i := by
  cases hl : lookupIdx m k with
  | some i => exact ⟨i, rfl⟩
  | none => exact absurd h ((lookupIdx_eq_none_iff m k).mp hl)

theorem applyProp_label (d : Dataset) (kv : String × JVal) (h : kv.1 ≠ "label") :
    (applyProp d kv).label = d.label := by
  unfold applyProp
  rw [if_neg h]
  simp [apply_ite Dataset.label]

theorem foldl_applyProp_label (props : PropBag) :
    ∀ base : Dataset, (∀ kv ∈ props, kv.1 ≠ "label") →
      (props.foldl applyProp base).label = base.label := by
  induction props with
  | nil =>
    intro base _
    rfl
  | cons kv rest ih =>
    intro base hall
    rw [List.foldl_cons,
      ih (applyProp base kv) (fun kv2 h2 => hall kv2 (List.mem_cons_of_mem _ h2))]
    exact applyProp_label base kv (hall kv (List.mem_cons_self _ _))

theorem newConfig_label (name : String) (props : PropBag) (d : JVal)
    (h : ∀ kv ∈ props, kv.1 ≠ "label") : (newConfig name props d).label = .str name := by
  unfold newConfig
  rw [foldl_applyProp_label props _ h]

theorem updateData_of_lt (st : ChartData) (idx : Nat) (n : String) (p : PropBag)
    (d : JVal) (h : idx < st.datasets.length) :
    updateData st idx n p d =
      { st with datasets := st.datasets.set idx (setTextData n d st.datasets[idx]) } := by
  unfold updateData
  rw [List.getElem?_eq_getElem h]

theorem updateData_of_ge (st : ChartData) (idx : Nat) (n : String) (p : PropBag)
    (d : JVal) (h : st.datasets.length ≤ idx) :
    updateData st idx n p d = { st with datasets := st.datasets ++ [newConfig n p d] } := by
  unfold updateData
  rw [List.getElem?_eq_none h]

theorem resolveIdx_of_lookup_some (st : ChartData) (n : String) (i : Nat)
    (h : lookupIdx st.name2idx n = some i) : resolveIdx st n = (st, i) := by
  unfold resolveIdx
  rw [h]

theorem resolveIdx_of_lookup_none (st : ChartData) (n : String)
    (h : lookupIdx st.name2idx n = none) :
    resolveIdx st n =
      ({ st with name2idx := st.name2idx ++ [(n, st.datasets.length)] },
        st.datasets.length) := by
  unfold resolveIdx
  rw [h]

/-- An overwrite through a registered index preserves the registry
invariant (only `text` and `data` of the slot change). -/
theorem regInv_resolveUpdate_mem (st : ChartData) (n : String) (p : PropBag) (d : JVal)
    (hR : RegInv st) (hmem : n ∈ st.name2idx.map Prod.fst) :
    RegInv (updateData (resolveIdx st n).1 (resolveIdx st n).2 n p d) ∧
    (updateData (resolveIdx st n).1 (resolveIdx st n).2 n p d).name2idx = st.name2idx ∧
    (updateData (resolveIdx st n).1 (resolveIdx st n).2 n p d).datasets.length =
      st.datasets.length := by
  obtain ⟨i, hl⟩ := mem_keys_lookup _ _ hmem
  obtain ⟨h1, h2, h3⟩ := hR
  have hmemi : (n, i) ∈ st.name2idx := lookupIdx_mem _ _ _ hl
  have hlab := h3 n i hmemi
  have hi : i < st.datasets.length := by
    cases hgi : st.datasets[i]? with
    | none =>
      rw [hgi] at hlab
      exact Option.noConfusion hlab
    | some ds => exact (List.getElem?_eq_some.mp hgi).1
  rw [resolveIdx_of_lookup_some st n i hl, updateData_of_lt st i n p d hi]
  refine ⟨⟨h1, ?_, ?_⟩, rfl, by simp⟩
  · show st.name2idx.length ≤ (st.datasets.set i (setTextData n d st.datasets[i])).length
    simpa using h2
  intro m j hmj
  by_cases hij : j = i
  · subst hij
    show ((st.datasets.set j (setTextData n d st.datasets[j]))[j]?).map Dataset.label =
      some (.str m)
    rw [List.getElem?_set_self hi]
    have hl2 := h3 m j hmj
    rw [List.getElem?_eq_getElem hi] at hl2
    simp only [Option.map_some'] at hl2 ⊢
    simpa [setTextData] using hl2
  · show ((st.datasets.set i (setTextData n d st.datasets[i]))[j]?).map Dataset.label =
      some (.str m)
    rw [List.getElem?_set_ne (fun he => hij he.symm)]
    exact h3 m j hmj

/-- The frame registers no new names: every derived car name and every line
name it processes is already in the registry. -/
def noNewNames (st : ChartData) (f : Frame) : Prop :=
  (∀ n ∈ frameCarNames f, arrowNameOf n ∈ st.name2idx.map Prod.fst ∧
    carBoxName n ∈ st.name2idx.map Prod.fst) ∧
  (∀ n ∈ frameLineNames f, n ∈ st.name2idx.map Prod.fst)

instance (st : ChartData) (f : Frame) : Decidable (noNewNames st f) := by
  unfold noNewNames
  infer_instance

/-- The frame's car and line style bags avoid the reserved key `label`. -/
def frameLabelFree (f : Frame) : Prop :=
  match f.properties with
  | some pb => (∀ nb ∈ pb.cars, ∀ kv ∈ nb.2, kv.1 ≠ "label") ∧
      (∀ nb ∈ pb.lines, ∀ kv ∈ nb.2, kv.1 ≠ "label")
  | none => True

instance (f : Frame) : Decidable (frameLabelFree f) := by
  unfold frameLabelFree
  cases f.properties <;> infer_instance

theorem bagSet_labelFree (b : PropBag) (k : String) (v : JVal)
    (hb : ∀ kv ∈ b, kv.1 ≠ "label") (hk : k ≠ "label") :
    ∀ kv ∈ bagSet b k v, kv.1 ≠ "label" := by
  induction b with
  | nil =>
    intro kv hkv
    simp only [bagSet, List.mem_singleton] at hkv
    subst hkv
    exact hk
  | cons kv0 rest ih =>
    intro kv hkv
    rw [bagSet] at hkv
    by_cases h0 : kv0.1 = k
    · rw [if_pos h0] at hkv
      rcases List.mem_cons.mp hkv with h | h
      · rw [h]
        rw [show ((kv0.1, v) : String × JVal).1 = kv0.1 from rfl]
        exact hb kv0 (List.mem_cons_self _ _)
      · exact hb kv (List.mem_cons_of_mem _ h)
    · rw [if_neg h0] at hkv
      rcases List.mem_cons.mp hkv with h | h
      · rw [h]
        exact hb kv0 (List.mem_cons_self _ _)
      · exact ih (fun kv2 h2 => hb kv2 (List.mem_cons_of_mem _ h2)) kv h

theorem mutateCarProps_labelFree (bag : PropBag) (hb : ∀ kv ∈ bag, kv.1 ≠ "label") :
    ∀ kv ∈ mutateCarProps bag, kv.1 ≠ "label" := by
  unfold mutateCarProps
  exact bagSet_labelFree _ _ _
    (bagSet_labelFree _ _ _ (bagSet_labelFree _ _ _ hb (by decide)) (by decide)) (by decide)

theorem carBoxProps_labelFree (p : PropBag) : ∀ kv ∈ carBoxProps p, kv.1 ≠ "label" := by
  intro kv hkv
  simp only [carBoxProps, List.mem_cons, List.not_mem_nil, or_false] at hkv
  rcases hkv with rfl | rfl | rfl | rfl | rfl | rfl <;> simp

/-- A fresh registration appends the name at the current sequence length and
pushes its freshly merged series; when the sequence had no trailing polygon
slots, the healthy-registry invariant is preserved. -/
theorem regInv_resolveUpdate_new (st : ChartData) (n : String) (p : PropBag) (d : JVal)
    (hR : RegInv st) (hlen : st.datasets.length = st.name2idx.length)
    (hmem : n ∉ st.name2idx.map Prod.fst) (hp : ∀ kv ∈ p, kv.1 ≠ "label") :
    RegInv (updateData (resolveIdx st n).1 (resolveIdx st n).2 n p d) ∧
    (updateData (resolveIdx st n).1 (resolveIdx st n).2 n p d).name2idx =
      st.name2idx ++ [(n, st.datasets.length)] ∧
    (updateData (resolveIdx st n).1 (resolveIdx st n).2 n p d).datasets.length =
      (updateData (resolveIdx st n).1 (resolveIdx st n).2 n p d).name2idx.length := by
  obtain ⟨h1, h2, h3⟩ := hR
  have hl : lookupIdx st.name2idx n = none := (lookupIdx_eq_none_iff _ _).mpr hmem
  rw [resolveIdx_of_lookup_none st n hl, updateData_of_ge _ _ _ _ _ (by simp)]
  refine ⟨⟨?_, ?_, ?_⟩, rfl, ?_⟩
  · show (st.name2idx ++ [(n, st.datasets.length)]).map Prod.snd =
      List.range (st.name2idx ++ [(n, st.datasets.length)]).length
    rw [List.map_append, h1, hlen]
    simp [List.range_succ]
  · show (st.name2idx ++ [(n, st.datasets.length)]).length ≤
      (st.datasets ++ [newConfig n p d]).length
    simp
    omega
  · intro m j hmj
    rw [List.mem_append] at hmj
    rcases hmj with hmj | hmj
    · have hj : j < st.datasets.length := by
        have hj2 : j ∈ st.name2idx.map Prod.snd :=
          List.mem_map.mpr ⟨(m, j), hmj, rfl⟩
        rw [h1] at hj2
        rw [hlen]
        exact List.mem_range.mp hj2
      show ((st.datasets ++ [newConfig n p d])[j]?).map Dataset.label = some (.str m)
      rw [List.getElem?_append_left hj]
      exact h3 m j hmj
    · rw [List.mem_singleton] at hmj
      cases hmj
      show ((st.datasets ++ [newConfig n p d])[st.datasets.length]?).map Dataset.label =
        some (.str n)
      rw [List.getElem?_concat_length]
      simp [newConfig_label n p d hp]
  · show (st.datasets ++ [newConfig n p d]).length =
      (st.name2idx ++ [(n, st.datasets.length)]).length
    simp
    omega

/-- `updateCar` in "fresh mode": applied to a state whose sequence length
equals the registry size, it preserves the invariant and that equality. -/
theorem updateCar_regInv_fresh (carPoly : CarPolyFn) (st : ChartData) (n : String)
    (pt : Pt) (bag : PropBag) (hR : RegInv st)
    (hlen : st.datasets.length = st.name2idx.length)
    (hbag : ∀ kv ∈ bag, kv.1 ≠ "label") :
    RegInv (updateCar carPoly st n pt bag).1 ∧
    (updateCar carPoly st n pt bag).1.datasets.length =
      (updateCar carPoly st n pt bag).1.name2idx.length := by
  have step1 : ∀ st0 : ChartData, RegInv st0 →
      st0.datasets.length = st0.name2idx.length →
      ∀ nm p d, (∀ kv ∈ p, kv.1 ≠ "label") →
      RegInv (updateData (resolveIdx st0 nm).1 (resolveIdx st0 nm).2 nm p d) ∧
      (updateData (resolveIdx st0 nm).1 (resolveIdx st0 nm).2 nm p d).datasets.length =
        (updateData (resolveIdx st0 nm).1 (resolveIdx st0 nm).2 nm p d).name2idx.length := by
    intro st0 hR0 hlen0 nm p d hp
    by_cases hmem : nm ∈ st0.name2idx.map Prod.fst
    · obtain ⟨hA, hB, hC⟩ := regInv_resolveUpdate_mem st0 nm p d hR0 hmem
      exact ⟨hA, by rw [hB, hC, hlen0]⟩
    · obtain ⟨hA, _, hC⟩ := regInv_resolveUpdate_new st0 nm p d hR0 hlen0 hmem hp
      exact ⟨hA, hC⟩
  obtain ⟨hA, hB⟩ := step1 st hR hlen (arrowNameOf n) (mutateCarProps bag) (.pts [pt])
    (mutateCarProps_labelFree bag hbag)
  exact step1 _ hA hB (carBoxName n) (carBoxProps (mutateCarProps bag))
    (.pts (carPoly pt.x pt.y pt.heading)) (carBoxProps_labelFree _)

/-- `updateCar` in "no new names" mode: both derived names are already
registered, so the registry and the sequence length are untouched. -/
theorem updateCar_regInv_noNew (carPoly : CarPolyFn) (st : ChartData) (n : String)
    (pt : Pt) (bag : PropBag) (hR : RegInv st)
    (ha : arrowNameOf n ∈ st.name2idx.map Prod.fst)
    (hb : carBoxName n ∈ st.name2idx.map Prod.fst) :
    RegInv (updateCar carPoly st n pt bag).1 ∧
    (updateCar carPoly st n pt bag).1.name2idx = st.name2idx ∧
    (updateCar carPoly st n pt bag).1.datasets.length = st.datasets.length := by
  obtain ⟨hA, hB, hC⟩ := regInv_resolveUpdate_mem st (arrowNameOf n)
    (mutateCarProps bag) (.pts [pt]) hR ha
  obtain ⟨hA2, hB2, hC2⟩ := regInv_resolveUpdate_mem _ (carBoxName n)
    (carBoxProps (mutateCarProps bag)) (.pts (carPoly pt.x pt.y pt.heading)) hA
    (by rw [hB]; exact hb)
  exact ⟨hA2, hB2.trans hB, hC2.trans hC⟩

theorem processCars_regInv_fresh (carPoly : CarPolyFn) (dcars : List (String × Pt))
    (st : ChartData) (bags : List (String × PropBag)) (hR : RegInv st)
    (hlen : st.datasets.length = st.name2idx.length)
    (hbags : ∀ nb ∈ bags, ∀ kv ∈ nb.2, kv.1 ≠ "label") :
    RegInv (processCars carPoly dcars st bags).1 ∧
    (processCars carPoly dcars st bags).1.datasets.length =
      (processCars carPoly dcars st bags).1.name2idx.length := by
  induction bags generalizing st with
  | nil => exact ⟨hR, hlen⟩
  | cons nb rest ih =>
    obtain ⟨hA, hB⟩ := updateCar_regInv_fresh carPoly st nb.1 (lookupPt dcars nb.1) nb.2
      hR hlen (hbags nb (List.mem_cons_self _ _))
    exact ih _ hA hB (fun nb2 h2 => hbags nb2 (List.mem_cons_of_mem _ h2))

theorem processCars_regInv_noNew (carPoly : CarPolyFn) (dcars : List (String × Pt))
    (st : ChartData) (bags : List (String × PropBag)) (hR : RegInv st)
    (hmem : ∀ nb ∈ bags, arrowNameOf nb.1 ∈ st.name2idx.map Prod.fst ∧
      carBoxName nb.1 ∈ st.name2idx.map Prod.fst) :
    RegInv (processCars carPoly dcars st bags).1 ∧
    (processCars carPoly dcars st bags).1.name2idx = st.name2idx ∧
    (processCars carPoly dcars st bags).1.datasets.length = st.datasets.length := by
  induction bags generalizing st with
  | nil => exact ⟨hR, rfl, rfl⟩
  | cons nb rest ih =>
    obtain ⟨hA, hB, hC⟩ := updateCar_regInv_noNew carPoly st nb.1 (lookupPt dcars nb.1)
      nb.2 hR (hmem nb (List.mem_cons_self _ _)).1 (hmem nb (List.mem_cons_self _ _)).2
    obtain ⟨hA2, hB2, hC2⟩ := ih _ hA
      (fun nb2 h2 => by
        rw [show (updateCar carPoly st nb.1 (lookupPt dcars nb.1) nb.2).1.name2idx =
          st.name2idx from hB]
        exact hmem nb2 (List.mem_cons_of_mem _ h2))
    exact ⟨hA2, hB2.trans hB, hC2.trans hC⟩

theorem processLines_regInv_fresh (dlines : List (String × JVal)) (st : ChartData)
    (bags : List (String × PropBag)) (hR : RegInv st)
    (hlen : st.datasets.length = st.name2idx.length)
    (hbags : ∀ nb ∈ bags, ∀ kv ∈ nb.2, kv.1 ≠ "label") :
    RegInv (processLines dlines st bags) ∧
    (processLines dlines st bags).datasets.length =
      (processLines dlines st bags).name2idx.length := by
  induction bags generalizing st with
  | nil => exact ⟨hR, hlen⟩
  | cons nb rest ih =>
    by_cases hmem : nb.1 ∈ st.name2idx.map Prod.fst
    · obtain ⟨hA, hB, hC⟩ := regInv_resolveUpdate_mem st nb.1 nb.2
        (lookupJD dlines nb.1 (.pts [])) hR hmem
      exact ih _ hA (by rw [hB, hC, hlen])
        (fun nb2 h2 => hbags nb2 (List.mem_cons_of_mem _ h2))
    · obtain ⟨hA, _, hC⟩ := regInv_resolveUpdate_new st nb.1 nb.2
        (lookupJD dlines nb.1 (.pts [])) hR hlen hmem
        (hbags nb (List.mem_cons_self _ _))
      exact ih _ hA hC (fun nb2 h2 => hbags nb2 (List.mem_cons_of_mem _ h2))

theorem processLines_regInv_noNew (dlines : List (String × JVal)) (st : ChartData)
    (bags : List (String × PropBag)) (hR : RegInv st)
    (hmem : ∀ nb ∈ bags, nb.1 ∈ st.name2idx.map Prod.fst) :
    RegInv (processLines dlines st bags) ∧
    (processLines dlines st bags).name2idx = st.name2idx ∧
    (processLines dlines st bags).datasets.length = st.datasets.length := by
  induction bags generalizing st with
  | nil => exact ⟨hR, rfl, rfl⟩
  | cons nb rest ih =>
    obtain ⟨hA, hB, hC⟩ := regInv_resolveUpdate_mem st nb.1 nb.2
      (lookupJD dlines nb.1 (.pts [])) hR (hmem nb (List.mem_cons_self _ _))
    obtain ⟨hA2, hB2, hC2⟩ := ih _ hA
      (fun nb2 h2 => by rw [hB]; exact hmem nb2 (List.mem_cons_of_mem _ h2))
    exact ⟨hA2, hB2.trans hB, hC2.trans hC⟩

/-- The polygon pass never touches series slots below its starting index. -/
theorem processPolys_front (pprops : List (String × PropBag))
    (polys : List (String × JVal)) (st : ChartData) (i0 : Nat)
    (Hi : i0 ≤ st.datasets.length) :
    ∀ j, j < i0 → (processPolys pprops st i0 polys).1.datasets[j]? = st.datasets[j]? := by
  induction polys generalizing st i0 with
  | nil =>
    intro j _
    rfl
  | cons nv rest ih =>
    intro j hj
    by_cases ht : truthy nv.2
    · rw [processPolys, if_pos ht]
      have Hi2 : i0 + 1 ≤
          (updateData st i0 nv.1 (lookupBagD pprops nv.1 defaultPolygonProperties)
            nv.2).datasets.length := by
        rw [updateData_length]
        by_cases h : i0 < st.datasets.length <;> simp [h] <;> omega
      rw [ih _ _ Hi2 j (by omega)]
      by_cases hlt : i0 < st.datasets.length
      · rw [updateData_of_lt _ _ _ _ _ hlt]
        exact List.getElem?_set_ne (by omega)
      · rw [updateData_of_ge _ _ _ _ _ (by omega)]
        exact List.getElem?_append_left (by omega)
    · rw [processPolys, if_neg ht]
      exact ih _ _ Hi j hj

/-- One frame preserves the healthy-registry invariant, provided the frame
either registers no new name or is applied to a state without trailing
polygon slots, and its style bags do not use the reserved key `label`. -/
theorem updateChart_regInv (carPoly : CarPolyFn) (st : ChartData) (f : Frame)
    (hR : RegInv st)
    (hcond : st.datasets.length = st.name2idx.length ∨ noNewNames st f)
    (hlab : frameLabelFree f) :
    RegInv (updateChartCD carPoly st f).1 := by
  cases hd : f.data with
  | none =>
    unfold updateChartCD
    rw [hd]
    exact hR
  | some db =>
    cases hp : f.properties with
    | none =>
      unfold updateChartCD
      rw [hd, hp]
      exact hR
    | some pb =>
      have hlab2 : (∀ nb ∈ pb.cars, ∀ kv ∈ nb.2, kv.1 ≠ "label") ∧
          (∀ nb ∈ pb.lines, ∀ kv ∈ nb.2, kv.1 ≠ "label") := by
        unfold frameLabelFree at hlab
        rw [hp] at hlab
        exact hlab
      have hphases : RegInv (processLines db.lines
            (processCars carPoly db.cars st pb.cars).1 pb.lines) ∧
          (processLines db.lines (processCars carPoly db.cars st pb.cars).1
            pb.lines).name2idx.length ≤
          (processLines db.lines (processCars carPoly db.cars st pb.cars).1
            pb.lines).datasets.length := by
        rcases hcond with hfresh | hnew
        · obtain ⟨hA, hB⟩ := processCars_regInv_fresh carPoly db.cars st pb.cars hR
            hfresh hlab2.1
          obtain ⟨hA2, hB2⟩ := processLines_regInv_fresh db.lines _ pb.lines hA hB
            hlab2.2
          exact ⟨hA2, le_of_eq hB2.symm⟩
        · unfold noNewNames at hnew
          rw [show frameCarNames f = pb.cars.map Prod.fst from by
              unfold frameCarNames; rw [hd, hp],
            show frameLineNames f = pb.lines.map Prod.fst from by
              unfold frameLineNames; rw [hd, hp]] at hnew
          obtain ⟨hA, hB, hC⟩ := processCars_regInv_noNew carPoly db.cars st pb.cars hR
            (fun nb h2 => hnew.1 nb.1 (List.mem_map.mpr ⟨nb, h2, rfl⟩))
          obtain ⟨hA2, hB2, hC2⟩ := processLines_regInv_noNew db.lines _ pb.lines hA
            (fun nb h2 => by rw [hB]; exact hnew.2 nb.1 (List.mem_map.mpr ⟨nb, h2, rfl⟩))
          exact ⟨hA2, hA2.2.1⟩
      rw [updateChartCD_accepted carPoly st f db pb hd hp]
      set st1 := processLines db.lines (processCars carPoly db.cars st pb.cars).1 pb.lines
        with hst1
      obtain ⟨hRst1, _⟩ := hphases
      obtain ⟨h1, h2, h3⟩ := hRst1
      cases hpoly : db.polygons with
      | none =>
        refine ⟨h1, ?_, ?_⟩
        · show st1.name2idx.length ≤ (st1.datasets.take st1.name2idx.length).length
          simp only [List.length_take]
          omega
        · intro m j hmj
          have hj : j < st1.name2idx.length := by
            have hj2 : j ∈ st1.name2idx.map Prod.snd := List.mem_map.mpr ⟨(m, j), hmj, rfl⟩
            rw [h1] at hj2
            exact List.mem_range.mp hj2
          show ((st1.datasets.take st1.name2idx.length)[j]?).map Dataset.label =
            some (.str m)
          rw [List.getElem?_take_of_lt hj]
          exact h3 m j hmj
      | some polys =>
        obtain ⟨hm1, hm2, hm3⟩ := processPolys_spec pb.polygons polys st1
          st1.name2idx.length h2
        refine ⟨?_, ?_, ?_⟩
        · show (processPolys pb.polygons st1 st1.name2idx.length polys).1.name2idx.map
            Prod.snd = List.range
              (processPolys pb.polygons st1 st1.name2idx.length polys).1.name2idx.length
          rw [hm1]
          exact h1
        · show (processPolys pb.polygons st1 st1.name2idx.length polys).1.name2idx.length ≤
            ((processPolys pb.polygons st1 st1.name2idx.length polys).1.datasets.take
              (processPolys pb.polygons st1 st1.name2idx.length polys).2).length
          rw [hm1]
          simp only [List.length_take]
          omega
        · intro m j hmj
          rw [show (processPolys pb.polygons st1 st1.name2idx.length polys).1.name2idx =
            st1.name2idx from hm1] at hmj
          have hj : j < st1.name2idx.length := by
            have hj2 : j ∈ st1.name2idx.map Prod.snd := List.mem_map.mpr ⟨(m, j), hmj, rfl⟩
            rw [h1] at hj2
            exact List.mem_range.mp hj2
          show (((processPolys pb.polygons st1 st1.name2idx.length polys).1.datasets.take
              (processPolys pb.polygons st1 st1.name2idx.length polys).2)[j]?).map
            Dataset.label = some (.str m)
          rw [List.getElem?_take_of_lt (by omega), processPolys_front pb.polygons polys
            st1 st1.name2idx.length h2 j hj]
          exact h3 m j hmj

/-! ### Index stability: the registry only ever grows by appending -/

theorem resolveIdx_map_grows (st : ChartData) (n : String) :
    st.name2idx <+: (resolveIdx st n).1.name2idx := by
  unfold resolveIdx
  cases lookupIdx st.name2idx n with
  | some i => exact List.prefix_refl _
  | none => exact List.prefix_append _ _

theorem updateCar_map_grows (carPoly : CarPolyFn) (st : ChartData) (n : String)
    (pt : Pt) (bag : PropBag) :
    st.name2idx <+: (updateCar carPoly st n pt bag).1.name2idx := by
  have h1 := resolveIdx_map_grows st (arrowNameOf n)
  have h2 := resolveIdx_map_grows
    (updateData (resolveIdx st (arrowNameOf n)).1 (resolveIdx st (arrowNameOf n)).2
      (arrowNameOf n) (mutateCarProps bag) (.pts [pt])) (carBoxName n)
  rw [updateData_name2idx] at h2
  have h3 : (updateCar carPoly st n pt bag).1.name2idx =
      (resolveIdx (updateData (resolveIdx st (arrowNameOf n)).1
        (resolveIdx st (arrowNameOf n)).2 (arrowNameOf n) (mutateCarProps bag)
        (.pts [pt])) (carBoxName n)).1.name2idx := by
    show (updateData _ _ _ _ _).name2idx = _
    rw [updateData_name2idx]
  rw [h3]
  exact h1.trans h2

theorem processCars_map_grows (carPoly : CarPolyFn) (dcars : List (String × Pt))
    (st : ChartData) (bags : List (String × PropBag)) :
    st.name2idx <+: (processCars carPoly dcars st bags).1.name2idx := by
  induction bags generalizing st with
  | nil => exact List.prefix_refl _
  | cons nb rest ih =>
    exact (updateCar_map_grows carPoly st nb.1 (lookupPt dcars nb.1) nb.2).trans
      (ih (updateCar carPoly st nb.1 (lookupPt dcars nb.1) nb.2).1)

theorem processLines_map_grows (dlines : List (String × JVal)) (st : ChartData)
    (bags : List (String × PropBag)) :
    st.name2idx <+: (processLines dlines st bags).name2idx := by
  induction bags generalizing st with
  | nil => exact List.prefix_refl _
  | cons nb rest ih =>
    have h1 := resolveIdx_map_grows st nb.1
    have h2 := ih (updateData (resolveIdx st nb.1).1 (resolveIdx st nb.1).2 nb.1 nb.2
      (lookupJD dlines nb.1 (.pts [])))
    rw [updateData_name2idx] at h2
    exact h1.trans h2

theorem updateChart_map_grows (carPoly : CarPolyFn) (st : ChartData) (f : Frame) :
    st.name2idx <+: (updateChartCD carPoly st f).1.name2idx := by
  cases hd : f.data with
  | none =>
    unfold updateChartCD
    rw [hd]
  | some db =>
    cases hp : f.properties with
    | none =>
      unfold updateChartCD
      rw [hd, hp]
    | some pb =>
      rw [updateChartCD_accepted carPoly st f db pb hd hp]
      cases hpoly : db.polygons with
      | none =>
        show st.name2idx <+: (processLines db.lines
          (processCars carPoly db.cars st pb.cars).1 pb.lines).name2idx
        exact (processCars_map_grows carPoly db.cars st pb.cars).trans
          (processLines_map_grows db.lines _ pb.lines)
      | some polys =>
        show st.name2idx <+: (processPolys pb.polygons
          (processLines db.lines (processCars carPoly db.cars st pb.cars).1 pb.lines)
          (processLines db.lines (processCars carPoly db.cars st pb.cars).1
            pb.lines).name2idx.length polys).1.name2idx
        rw [processPolys_name2idx]
        exact (processCars_map_grows carPoly db.cars st pb.cars).trans
          (processLines_map_grows db.lines _ pb.lines)

theorem applyFrames_map_grows (carPoly : CarPolyFn) (st : ChartData) (fs : List Frame) :
    st.name2idx <+: (applyFramesCD carPoly st fs).name2idx := by
  induction fs generalizing st with
  | nil => exact List.prefix_refl _
  | cons f rest ih =>
    exact (updateChart_map_grows carPoly st f).trans
      (ih (updateChartCD carPoly st f).1)

/-- History condition under which the registry stays healthy: every frame
either registers no new car/line name, or is applied to a state whose
series sequence has no trailing polygon slots; and style bags avoid the
reserved key `label`. -/
def goodHistory (carPoly : CarPolyFn) : ChartData → List Frame → Prop
  | _, [] => True
  | st, f :: fs =>
    (st.datasets.length = st.name2idx.length ∨ noNewNames st f) ∧
    frameLabelFree f ∧
    goodHistory carPoly (updateChartCD carPoly st f).1 fs

instance goodHistoryDecidable (carPoly : CarPolyFn) :
    (st : ChartData) → (fs : List Frame) → Decidable (goodHistory carPoly st fs)
  | _, [] => .isTrue trivial
  | st, f :: fs =>
    haveI := goodHistoryDecidable carPoly (updateChartCD carPoly st f).1 fs
    by unfold goodHistory; infer_instance

/-- C2 (amended): provided every frame that first registers a new car or
line name is applied to a state without trailing polygon slots (for
example, when all cars and lines appear from the first frame on) and style
bags avoid the reserved key `label`, the registry stays healthy: the mapped
indices are exactly `0..k-1` in registration order (so every newly
registered name received the index equal to the sequence length at the
moment of registration, never a mid-sequence index), every mapped name has
its own series — labelled with that name — at exactly its index, and the
registry of any earlier state is a prefix of the later registry, so the
indices of persisting names never change (the prefix fact holds
unconditionally). -/
theorem c2_amended (carPoly : CarPolyFn) (fs : List Frame)
    (hg : goodHistory carPoly {} fs) :
    RegInv (applyFramesCD carPoly {} fs) ∧
    ∀ fs1 fs2, fs = fs1 ++ fs2 →
      (applyFramesCD carPoly {} fs1).name2idx <+:
        (applyFramesCD carPoly {} fs).name2idx := by
  constructor
  · have hgen : ∀ (fs2 : List Frame) (st : ChartData), RegInv st →
        goodHistory carPoly st fs2 → RegInv (applyFramesCD carPoly st fs2) := by
      intro fs2
      induction fs2 with
      | nil =>
        intro st h _
        exact h
      | cons f rest ih =>
        intro st hR hg2
        exact ih _ (updateChart_regInv carPoly st f hR hg2.1 hg2.2.1) hg2.2.2
    exact hgen fs {} ⟨rfl, Nat.le_refl 0, by simp⟩ hg
  · intro fs1 fs2 hsplit
    subst hsplit
    rw [applyFramesCD_append]
    exact applyFrames_map_grows carPoly _ fs2

/-- C2 (witness): two frames — a car with a polygon, then the same car with
a polygon — satisfy the history condition, and the final registry is
healthy. -/
theorem c2_amended_witness :
    goodHistory (fun _ _ _ => []) {} [c3f1, c3f1] ∧
    RegInv (applyFramesCD (fun _ _ _ => []) {} [c3f1, c3f1]) :=
  ⟨by unfold goodHistory; decide,
    (c2_amended (fun _ _ _ => []) [c3f1, c3f1] (by unfold goodHistory; decide)).1⟩

/-! ### Full frame effect: pipeline plus axis recomputation (C7) -/

/-- The per-axis `afterDataLimits` configuration chosen by
`initializeCanvas`: a truthy `windowSize` installs the fixed window, else
the `syncXYWindowSize` flag installs the joint auto-fit, else no hook. -/
inductive AxisPolicy where
  | fixedWindow (windowSize : ℚ) (midValue : JVal)
  | autoFit
  | plain
  deriving DecidableEq, Repr

/-- The points of a dataset as the axis controller sees them. -/
def toPts : JVal → List Pt
  | .pts l => l
  | _ => []

/-- The chart contents the axis controller sees after a pipeline update:
every dataset visible, attached to the single standard axis pair. -/
def chartOf (cd : ChartData) : VChart :=
  { datasets := cd.datasets.map fun d => { data := toPts d.data } }

/-- Run one axis's `afterDataLimits` hook. -/
def runPolicy : AxisPolicy → Scale → VChart → Scale
  | .fixedWindow w mv, s, _ => updateTickWindow s w mv
  | .autoFit, s, c => syncXYWindowSize s c
  | .plain, s, _ => s

/-- A live chart: registry, series, and the two scales. -/
structure FullState where
  cd : ChartData := {}
  xScale : Scale := {}
  yScale : Scale := { id := "y-axis-0", horizontal := false }
  deriving DecidableEq, Repr

/-- One complete frame effect: the guard, the update pipeline, then the
redraw (`chart.update(0)`) re-running each configured axis hook.  Returns
the frame as the caller now sees it (mutated car bags). -/
def applyFrame (carPoly : CarPolyFn) (xp yp : AxisPolicy) (st : FullState)
    (f : Frame) : FullState × Frame :=
  match f.data, f.properties with
  | some _, some _ =>
    let r := updateChartCD carPoly st.cd f
    let c := chartOf r.1
    ({ cd := r.1, xScale := runPolicy xp st.xScale c, yScale := runPolicy yp st.yScale c },
      r.2)
  | _, _ => (st, f)

/-- A state whose registry carries dangling indices (`w ↦ 5`, `u ↦ 8` with
only two series); such states are reachable via polygon frames followed by
registration frames and subsequent truncation. -/
abbrev c7st : FullState :=
  { cd := { name2idx := [("w", 5), ("u", 8)],
            datasets := [{ label := .str "A" }, { label := .str "B" }] } }

/-- A frame carrying six lines, among them the two stale names. -/
abbrev c7f : Frame :=
  { data := some
      { lines := [("w", .pts [{ x := some 1 }]), ("n1", .pts [{ x := some 2 }]),
          ("n2", .pts [{ x := some 3 }]), ("u", .pts [{ x := some 4 }]),
          ("n3", .pts [{ x := some 5 }]), ("n4", .pts [{ x := some 6 }])] },
    properties := some
      { lines := [("w", [("color", .str "cw")]), ("n1", [("color", .str "c1")]),
          ("n2", [("color", .str "c2")]), ("u", [("color", .str "cu")]),
          ("n3", [("color", .str "c3")]), ("n4", [("color", .str "c4")])] } }

/-- C7 (counterexample): applying the same frame twice to `c7st` yields a
different series sequence than applying it once — the slot of `u` ends with
text `u` after one application but text `w` after two. -/
theorem c7_counterexample :
    ((applyFrame (fun _ _ _ => []) .plain .plain
        (applyFrame (fun _ _ _ => []) .plain .plain c7st c7f).1
        (applyFrame (fun _ _ _ => []) .plain .plain c7st c7f).2).1.cd.datasets ≠
      (applyFrame (fun _ _ _ => []) .plain .plain c7st c7f).1.cd.datasets) := by
  decide

/-! ### Reified slot writes: the pipeline as a list of dataset writes -/

/-- One dataset write of the pipeline: target index, series name, style bag
(used only on creation) and the new point data. -/
structure WriteD where
  idx : Nat
  name : String
  props : PropBag
  wdata : JVal
  deriving DecidableEq, Repr

/-- The dataset-array effect of `updateData`: overwrite `text`/`data` in
place, or push a freshly merged config. -/
def applyWriteD (D : List Dataset) (w : WriteD) : List Dataset :=
  match D[w.idx]? with
  | some ds => D.set w.idx (setTextData w.name w.wdata ds)
  | none => D ++ [newConfig w.name w.props w.wdata]

theorem updateData_datasets (st : ChartData) (idx : Nat) (n : String) (p : PropBag)
    (d : JVal) :
    (updateData st idx n p d).datasets = applyWriteD st.datasets ⟨idx, n, p, d⟩ := by
  unfold updateData applyWriteD
  cases st.datasets[idx]? <;> rfl

theorem applyWriteD_length_ge (D : List Dataset) (w : WriteD) :
    D.length ≤ (applyWriteD D w).length := by
  unfold applyWriteD
  cases D[w.idx]? <;> simp

theorem foldl_applyWriteD_length_ge (W : List WriteD) (D : List Dataset) :
    D.length ≤ (W.foldl applyWriteD D).length := by
  induction W generalizing D with
  | nil => exact le_refl _
  | cons w ws ih => exact le_trans (applyWriteD_length_ge D w) (ih _)

/-- Every write lands no further than the current array end (so pushes
create exactly the slot named by the write). -/
def Aligned : List WriteD → List Dataset → Prop
  | [], _ => True
  | w :: ws, D => w.idx ≤ D.length ∧ Aligned ws (applyWriteD D w)

theorem aligned_append (W1 W2 : List WriteD) (D : List Dataset) :
    Aligned (W1 ++ W2) D ↔ Aligned W1 D ∧ Aligned W2 (W1.foldl applyWriteD D) := by
  induction W1 generalizing D with
  | nil => simp [Aligned]
  | cons w ws ih => simp [Aligned, ih, and_assoc]

/-- First-match lookup with default `0` (always applied to present keys). -/
def lookup0 (m : List (String × Nat)) (k : String) : Nat := (lookupIdx m k).getD 0

theorem lookupIdx_append (m l : List (String × Nat)) (k : String) :
    lookupIdx (m ++ l) k =
      match lookupIdx m k with
      | some v => some v
      | none => lookupIdx l k := by
  induction m with
  | nil => rfl
  | cons kv rest ih =>
    by_cases h : kv.1 = k
    · simp [lookupIdx, h]
    · simp [lookupIdx, h, ih]

theorem lookupIdx_of_pref (m M : List (String × Nat)) (k : String) (i : Nat)
    (hp : m <+: M) (h : lookupIdx m k = some i) : lookupIdx M k = some i := by
  obtain ⟨t, rfl⟩ := hp
  rw [lookupIdx_append, h]

theorem lookupIdx_pref_fresh (m M : List (String × Nat)) (k : String) (v : Nat)
    (hp : m ++ [(k, v)] <+: M) (hnm : lookupIdx m k = none) :
    lookupIdx M k = some v := by
  obtain ⟨t, rfl⟩ := hp
  rw [List.append_assoc, lookupIdx_append, hnm]
  simp [lookupIdx]

/-- Reification of one resolve-then-update step: its dataset effect is the
write at the final map's index for the name; under dangling-free indices
the write is aligned, and dangling-freeness is preserved. -/
theorem resolveUpdate_RA (st : ChartData) (n : String) (p : PropBag) (d : JVal)
    (M : List (String × Nat))
    (Hlt : ∀ q ∈ st.name2idx, q.2 < st.datasets.length)
    (hpre : (resolveIdx st n).1.name2idx <+: M) :
    ((updateData (resolveIdx st n).1 (resolveIdx st n).2 n p d).datasets =
      applyWriteD st.datasets ⟨lookup0 M n, n, p, d⟩) ∧
    lookup0 M n ≤ st.datasets.length ∧
    (∀ q ∈ (updateData (resolveIdx st n).1 (resolveIdx st n).2 n p d).name2idx,
      q.2 < (updateData (resolveIdx st n).1 (resolveIdx st n).2 n p d).datasets.length) := by
  cases hl : lookupIdx st.name2idx n with
  | some i =>
    rw [resolveIdx_of_lookup_some st n i hl] at hpre ⊢
    have hM : lookupIdx M n = some i := lookupIdx_of_pref _ _ _ _ hpre hl
    have h0 : lookup0 M n = i := by rw [lookup0, hM] ; rfl
    have hi : i < st.datasets.length := Hlt (n, i) (lookupIdx_mem _ _ _ hl)
    refine ⟨?_, ?_, ?_⟩
    · rw [updateData_datasets, h0]
    · rw [h0]
      exact le_of_lt hi
    · intro q hq
      rw [updateData_name2idx] at hq
      replace hq : q ∈ st.name2idx := hq
      have h1 := Hlt q hq
      have hlen := updateData_length_ge st i n p d
      show q.2 < (updateData st i n p d).datasets.length
      omega
  | none =>
    rw [resolveIdx_of_lookup_none st n hl] at hpre ⊢
    have hM : lookupIdx M n = some st.datasets.length :=
      lookupIdx_pref_fresh st.name2idx M n st.datasets.length hpre hl
    have h0 : lookup0 M n = st.datasets.length := by rw [lookup0, hM] ; rfl
    have hlen : (updateData
        { st with name2idx := st.name2idx ++ [(n, st.datasets.length)] }
        st.datasets.length n p d).datasets.length = st.datasets.length + 1 := by
      rw [updateData_length]
      simp
    refine ⟨?_, ?_, ?_⟩
    · rw [updateData_datasets, h0]
    · rw [h0]
    · intro q hq
      rw [updateData_name2idx] at hq
      replace hq : q ∈ st.name2idx ++ [(n, st.datasets.length)] := hq
      show q.2 < (updateData
        { st with name2idx := st.name2idx ++ [(n, st.datasets.length)] }
        st.datasets.length n p d).datasets.length
      rw [hlen]
      rcases List.mem_append.mp hq with hq | hq
      · have h1 := Hlt q hq
        omega
      · rw [List.mem_singleton] at hq
        subst hq
        omega

/-- The writes of the cars loop, indexed through the final registry `M`. -/
def carWrites (carPoly : CarPolyFn) (M : List (String × Nat))
    (dcars : List (String × Pt)) : List (String × PropBag) → List WriteD
  | [] => []
  | nb :: rest =>
    ⟨lookup0 M (arrowNameOf nb.1), arrowNameOf nb.1, mutateCarProps nb.2,
      .pts [lookupPt dcars nb.1]⟩ ::
    ⟨lookup0 M (carBoxName nb.1), carBoxName nb.1, carBoxProps (mutateCarProps nb.2),
      .pts (carPoly (lookupPt dcars nb.1).x (lookupPt dcars nb.1).y
        (lookupPt dcars nb.1).heading)⟩ :: carWrites carPoly M dcars rest

/-- The writes of the lines loop. -/
def lineWrites (M : List (String × Nat)) (dlines : List (String × JVal)) :
    List (String × PropBag) → List WriteD
  | [] => []
  | nb :: rest =>
    ⟨lookup0 M nb.1, nb.1, nb.2, lookupJD dlines nb.1 (.pts [])⟩ ::
      lineWrites M dlines rest

/-- The writes of the polygons loop (falsy values skipped, counter advances
per rendered polygon). -/
def polyWrites (pprops : List (String × PropBag)) : Nat → List (String × JVal) → List WriteD
  | _, [] => []
  | i0, (name, v) :: rest =>
    if truthy v then
      ⟨i0, name, lookupBagD pprops name defaultPolygonProperties, v⟩ ::
        polyWrites pprops (i0 + 1) rest
    else polyWrites pprops i0 rest

theorem updateCar_RA (carPoly : CarPolyFn) (st : ChartData) (n : String) (pt : Pt)
    (bag : PropBag) (M : List (String × Nat))
    (Hlt : ∀ q ∈ st.name2idx, q.2 < st.datasets.length)
    (hpre : (updateCar carPoly st n pt bag).1.name2idx <+: M) :
    ((updateCar carPoly st n pt bag).1.datasets =
      applyWriteD (applyWriteD st.datasets
        ⟨lookup0 M (arrowNameOf n), arrowNameOf n, mutateCarProps bag, .pts [pt]⟩)
        ⟨lookup0 M (carBoxName n), carBoxName n, carBoxProps (mutateCarProps bag),
          .pts (carPoly pt.x pt.y pt.heading)⟩) ∧
    lookup0 M (arrowNameOf n) ≤ st.datasets.length ∧
    lookup0 M (carBoxName n) ≤ (applyWriteD st.datasets
      ⟨lookup0 M (arrowNameOf n), arrowNameOf n, mutateCarProps bag, .pts [pt]⟩).length ∧
    (∀ q ∈ (updateCar carPoly st n pt bag).1.name2idx,
      q.2 < (updateCar carPoly st n pt bag).1.datasets.length) := by
  have e4 : (updateCar carPoly st n pt bag).1.name2idx =
      (resolveIdx (updateData (resolveIdx st (arrowNameOf n)).1
        (resolveIdx st (arrowNameOf n)).2 (arrowNameOf n) (mutateCarProps bag)
        (.pts [pt])) (carBoxName n)).1.name2idx := by
    show (updateData _ _ _ _ _).name2idx = _
    rw [updateData_name2idx]
  have hp2 : (resolveIdx (updateData (resolveIdx st (arrowNameOf n)).1
      (resolveIdx st (arrowNameOf n)).2 (arrowNameOf n) (mutateCarProps bag)
      (.pts [pt])) (carBoxName n)).1.name2idx <+: M := by
    rw [← e4]
    exact hpre
  have hp1 : (resolveIdx st (arrowNameOf n)).1.name2idx <+: M := by
    have e2 : (updateData (resolveIdx st (arrowNameOf n)).1
        (resolveIdx st (arrowNameOf n)).2 (arrowNameOf n) (mutateCarProps bag)
        (.pts [pt])).name2idx = (resolveIdx st (arrowNameOf n)).1.name2idx :=
      updateData_name2idx _ _ _ _ _
    rw [← e2]
    exact (resolveIdx_map_grows _ (carBoxName n)).trans hp2
  obtain ⟨d1, a1, l1⟩ := resolveUpdate_RA st (arrowNameOf n) (mutateCarProps bag)
    (.pts [pt]) M Hlt hp1
  obtain ⟨d2, a2, l2⟩ := resolveUpdate_RA _ (carBoxName n)
    (carBoxProps (mutateCarProps bag)) (.pts (carPoly pt.x pt.y pt.heading)) M l1 hp2
  refine ⟨?_, a1, ?_, ?_⟩
  · show (updateData (resolveIdx (updateData (resolveIdx st (arrowNameOf n)).1
      (resolveIdx st (arrowNameOf n)).2 (arrowNameOf n) (mutateCarProps bag)
      (.pts [pt])) (carBoxName n)).1 (resolveIdx (updateData (resolveIdx st (arrowNameOf n)).1
      (resolveIdx st (arrowNameOf n)).2 (arrowNameOf n) (mutateCarProps bag)
      (.pts [pt])) (carBoxName n)).2 (carBoxName n) (carBoxProps (mutateCarProps bag))
      (.pts (carPoly pt.x pt.y pt.heading))).datasets = _
    rw [d2, d1]
  · rw [← d1]
    exact a2
  · exact l2

theorem processCars_RA (carPoly : CarPolyFn) (dcars : List (String × Pt)) :
    ∀ (bags : List (String × PropBag)) (st : ChartData) (M : List (String × Nat)),
    (∀ q ∈ st.name2idx, q.2 < st.datasets.length) →
    (processCars carPoly dcars st bags).1.name2idx <+: M →
    ((processCars carPoly dcars st bags).1.datasets =
      (carWrites carPoly M dcars bags).foldl applyWriteD st.datasets) ∧
    Aligned (carWrites carPoly M dcars bags) st.datasets ∧
    (∀ q ∈ (processCars carPoly dcars st bags).1.name2idx,
      q.2 < (processCars carPoly dcars st bags).1.datasets.length) := by
  intro bags
  induction bags with
  | nil =>
    intro st M Hlt _
    exact ⟨rfl, trivial, Hlt⟩
  | cons nb rest ih =>
    intro st M Hlt hpre
    have hpre1 : (updateCar carPoly st nb.1 (lookupPt dcars nb.1) nb.2).1.name2idx <+: M :=
      (processCars_map_grows carPoly dcars _ rest).trans hpre
    obtain ⟨dc, a1, a2, hlt2⟩ := updateCar_RA carPoly st nb.1 (lookupPt dcars nb.1)
      nb.2 M Hlt hpre1
    obtain ⟨dr, ar, hltr⟩ := ih (updateCar carPoly st nb.1 (lookupPt dcars nb.1) nb.2).1
      M hlt2 hpre
    refine ⟨?_, ⟨a1, a2, ?_⟩, hltr⟩
    · show (processCars carPoly dcars
        (updateCar carPoly st nb.1 (lookupPt dcars nb.1) nb.2).1 rest).1.datasets = _
      rw [dr, dc]
      rfl
    · rw [← dc]
      exact ar

theorem processLines_RA (dlines : List (String × JVal)) :
    ∀ (bags : List (String × PropBag)) (st : ChartData) (M : List (String × Nat)),
    (∀ q ∈ st.name2idx, q.2 < st.datasets.length) →
    (processLines dlines st bags).name2idx <+: M →
    ((processLines dlines st bags).datasets =
      (lineWrites M dlines bags).foldl applyWriteD st.datasets) ∧
    Aligned (lineWrites M dlines bags) st.datasets ∧
    (∀ q ∈ (processLines dlines st bags).name2idx,
      q.2 < (processLines dlines st bags).datasets.length) := by
  intro bags
  induction bags with
  | nil =>
    intro st M Hlt _
    exact ⟨rfl, trivial, Hlt⟩
  | cons nb rest ih =>
    intro st M Hlt hpre
    have hpre1 : (resolveIdx st nb.1).1.name2idx <+: M := by
      have e2 : (updateData (resolveIdx st nb.1).1 (resolveIdx st nb.1).2 nb.1 nb.2
          (lookupJD dlines nb.1 (.pts []))).name2idx =
          (resolveIdx st nb.1).1.name2idx := updateData_name2idx _ _ _ _ _
      rw [← e2]
      exact (processLines_map_grows dlines _ rest).trans hpre
    obtain ⟨d1, a1, l1⟩ := resolveUpdate_RA st nb.1 nb.2
      (lookupJD dlines nb.1 (.pts [])) M Hlt hpre1
    obtain ⟨dr, ar, hltr⟩ := ih (updateData (resolveIdx st nb.1).1 (resolveIdx st nb.1).2
      nb.1 nb.2 (lookupJD dlines nb.1 (.pts []))) M l1 hpre
    refine ⟨?_, ⟨a1, ?_⟩, hltr⟩
    · show (processLines dlines (updateData (resolveIdx st nb.1).1 (resolveIdx st nb.1).2
        nb.1 nb.2 (lookupJD dlines nb.1 (.pts []))) rest).datasets = _
      rw [dr, d1]
      rfl
    · rw [← d1]
      exact ar

theorem processPolys_RA (pprops : List (String × PropBag)) :
    ∀ (polys : List (String × JVal)) (st : ChartData) (i0 : Nat),
    i0 ≤ st.datasets.length →
    ((processPolys pprops st i0 polys).1.datasets =
      (polyWrites pprops i0 polys).foldl applyWriteD st.datasets) ∧
    Aligned (polyWrites pprops i0 polys) st.datasets := by
  intro polys
  induction polys with
  | nil =>
    intro st i0 _
    exact ⟨rfl, trivial⟩
  | cons nv rest ih =>
    intro st i0 Hi
    by_cases ht : truthy nv.2
    · have Hi2 : i0 + 1 ≤
          (updateData st i0 nv.1 (lookupBagD pprops nv.1 defaultPolygonProperties)
            nv.2).datasets.length := by
        rw [updateData_length]
        by_cases h : i0 < st.datasets.length <;> simp [h] <;> omega
      obtain ⟨dr, ar⟩ := ih (updateData st i0 nv.1
        (lookupBagD pprops nv.1 defaultPolygonProperties) nv.2) (i0 + 1) Hi2
      refine ⟨?_, ?_⟩
      · rw [processPolys, if_pos ht, dr, polyWrites, if_pos ht, List.foldl_cons,
          updateData_datasets]
      · rw [polyWrites, if_pos ht]
        refine ⟨Hi, ?_⟩
        rw [← updateData_datasets]
        exact ar
    · obtain ⟨dr, ar⟩ := ih st i0 Hi
      rw [processPolys, if_neg ht, polyWrites, if_neg ht]
      exact ⟨dr, ar⟩

/-- Number of rendered polygons of a data bundle. -/
def qCount (db : DataBundle) : Nat :=
  match db.polygons with
  | some polys => (polys.filter fun nv => truthy nv.2).length
  | none => 0

/-- The three loops of `updateChart` before the trailing splice: final
contents and the splice cutoff. -/
def chartPhases (carPoly : CarPolyFn) (st : ChartData) (db : DataBundle)
    (pb : PropBundle) : ChartData × Nat :=
  let rc := processCars carPoly db.cars st pb.cars
  let st1 := processLines db.lines rc.1 pb.lines
  match db.polygons with
  | some polys => processPolys pb.polygons st1 st1.name2idx.length polys
  | none => (st1, st1.name2idx.length)

/-- The registry as it stands at the end of the frame (polygons never touch
it). -/
def finalMap (carPoly : CarPolyFn) (st : ChartData) (db : DataBundle)
    (pb : PropBundle) : List (String × Nat) :=
  (processLines db.lines (processCars carPoly db.cars st pb.cars).1 pb.lines).name2idx

/-- All writes of one frame, indexed through the final registry. -/
def frameWrites (carPoly : CarPolyFn) (M : List (String × Nat)) (db : DataBundle)
    (pb : PropBundle) : List WriteD :=
  carWrites carPoly M db.cars pb.cars ++ lineWrites M db.lines pb.lines ++
    (match db.polygons with
     | some polys => polyWrites pb.polygons M.length polys
     | none => [])

theorem updateChartCD_phases (carPoly : CarPolyFn) (st : ChartData) (f : Frame)
    (db : DataBundle) (pb : PropBundle) (hd : f.data = some db)
    (hp : f.properties = some pb) :
    updateChartCD carPoly st f =
      ({ (chartPhases carPoly st db pb).1 with
          datasets := (chartPhases carPoly st db pb).1.datasets.take
            (chartPhases carPoly st db pb).2 },
        { f with properties := some { pb with
            cars := (processCars carPoly db.cars st pb.cars).2 } }) := by
  rw [updateChartCD_accepted carPoly st f db pb hd hp]
  rfl

theorem chartPhases_eq_none (carPoly : CarPolyFn) (st : ChartData) (db : DataBundle)
    (pb : PropBundle) (h : db.polygons = none) :
    chartPhases carPoly st db pb =
      (processLines db.lines (processCars carPoly db.cars st pb.cars).1 pb.lines,
        (processLines db.lines
          (processCars carPoly db.cars st pb.cars).1 pb.lines).name2idx.length) := by
  unfold chartPhases
  rw [h]

theorem chartPhases_eq_some (carPoly : CarPolyFn) (st : ChartData) (db : DataBundle)
    (pb : PropBundle) (polys : List (String × JVal)) (h : db.polygons = some polys) :
    chartPhases carPoly st db pb =
      processPolys pb.polygons
        (processLines db.lines (processCars carPoly db.cars st pb.cars).1 pb.lines)
        (processLines db.lines
          (processCars carPoly db.cars st pb.cars).1 pb.lines).name2idx.length
        polys := by
  unfold chartPhases
  rw [h]

theorem frameWrites_eq_none (carPoly : CarPolyFn) (M : List (String × Nat))
    (db : DataBundle) (pb : PropBundle) (h : db.polygons = none) :
    frameWrites carPoly M db pb =
      carWrites carPoly M db.cars pb.cars ++ lineWrites M db.lines pb.lines := by
  unfold frameWrites
  rw [h, List.append_nil]

theorem frameWrites_eq_some (carPoly : CarPolyFn) (M : List (String × Nat))
    (db : DataBundle) (pb : PropBundle) (polys : List (String × JVal))
    (h : db.polygons = some polys) :
    frameWrites carPoly M db pb =
      carWrites carPoly M db.cars pb.cars ++ lineWrites M db.lines pb.lines ++
        polyWrites pb.polygons M.length polys := by
  unfold frameWrites
  rw [h]

theorem qCount_eq_none (db : DataBundle) (h : db.polygons = none) : qCount db = 0 := by
  unfold qCount
  rw [h]

theorem qCount_eq_some (db : DataBundle) (polys : List (String × JVal))
    (h : db.polygons = some polys) :
    qCount db = (polys.filter fun nv => truthy nv.2).length := by
  unfold qCount
  rw [h]

/-- First run of a frame on a healthy state: the loops realize exactly the
frame's write list threaded through the final registry, every write lands at
its registered index, and the splice cutoff is registry size plus rendered
polygons. -/
theorem chartPhases_RA (carPoly : CarPolyFn) (st : ChartData) (db : DataBundle)
    (pb : PropBundle)
    (Hlt : ∀ q ∈ st.name2idx, q.2 < st.datasets.length) (Hle : lenInv st) :
    ((chartPhases carPoly st db pb).1.name2idx = finalMap carPoly st db pb) ∧
    ((chartPhases carPoly st db pb).1.datasets =
      (frameWrites carPoly (finalMap carPoly st db pb) db pb).foldl applyWriteD
        st.datasets) ∧
    Aligned (frameWrites carPoly (finalMap carPoly st db pb) db pb) st.datasets ∧
    ((chartPhases carPoly st db pb).2 =
      (finalMap carPoly st db pb).length + qCount db) ∧
    (chartPhases carPoly st db pb).2 ≤ (chartPhases carPoly st db pb).1.datasets.length := by
  have hpreC : (processCars carPoly db.cars st pb.cars).1.name2idx <+:
      finalMap carPoly st db pb :=
    processLines_map_grows db.lines _ pb.lines
  obtain ⟨dC, aC, hltC⟩ := processCars_RA carPoly db.cars pb.cars st
    (finalMap carPoly st db pb) Hlt hpreC
  obtain ⟨dL, aL, hltL⟩ := processLines_RA db.lines pb.lines
    (processCars carPoly db.cars st pb.cars).1 (finalMap carPoly st db pb) hltC
    (List.prefix_refl _)
  obtain ⟨HleC, _⟩ := processCars_Hle carPoly db.cars st pb.cars Hle
  obtain ⟨HleL, _⟩ := processLines_Hle db.lines
    (processCars carPoly db.cars st pb.cars).1 pb.lines HleC
  have hfoldCL : (processLines db.lines (processCars carPoly db.cars st pb.cars).1
      pb.lines).datasets =
      ((carWrites carPoly (finalMap carPoly st db pb) db.cars pb.cars ++
        lineWrites (finalMap carPoly st db pb) db.lines pb.lines).foldl applyWriteD
        st.datasets) := by
    rw [List.foldl_append, ← dC, dL]
  have hACL : Aligned (carWrites carPoly (finalMap carPoly st db pb) db.cars pb.cars ++
      lineWrites (finalMap carPoly st db pb) db.lines pb.lines) st.datasets := by
    rw [aligned_append]
    refine ⟨aC, ?_⟩
    rw [← dC]
    exact aL
  cases hpoly : db.polygons with
  | none =>
    rw [chartPhases_eq_none carPoly st db pb hpoly,
      frameWrites_eq_none carPoly _ db pb hpoly, qCount_eq_none db hpoly]
    refine ⟨rfl, hfoldCL, hACL, ?_, HleL⟩
    rw [Nat.add_zero]
    rfl
  | some polys =>
    have Hi : (finalMap carPoly st db pb).length ≤
        (processLines db.lines (processCars carPoly db.cars st pb.cars).1
          pb.lines).datasets.length := HleL
    obtain ⟨dP, aP⟩ := processPolys_RA pb.polygons polys
      (processLines db.lines (processCars carPoly db.cars st pb.cars).1 pb.lines)
      (finalMap carPoly st db pb).length Hi
    obtain ⟨sP1, sP2, sP3⟩ := processPolys_spec pb.polygons polys
      (processLines db.lines (processCars carPoly db.cars st pb.cars).1 pb.lines)
      (finalMap carPoly st db pb).length Hi
    rw [chartPhases_eq_some carPoly st db pb polys hpoly,
      frameWrites_eq_some carPoly _ db pb polys hpoly, qCount_eq_some db polys hpoly,
      show (processLines db.lines (processCars carPoly db.cars st pb.cars).1
        pb.lines).name2idx = finalMap carPoly st db pb from rfl]
    refine ⟨sP1, ?_, ?_, sP2, sP3⟩
    · rw [dP, List.foldl_append, ← hfoldCL]
    · rw [aligned_append]
      refine ⟨hACL, ?_⟩
      rw [← hfoldCL]
      exact aP

theorem resolveIdx_of_mem (st : ChartData) (n : String)
    (h : n ∈ st.name2idx.map Prod.fst) :
    resolveIdx st n = (st, lookup0 st.name2idx n) := by
  obtain ⟨i, hi⟩ := mem_keys_lookup _ _ h
  rw [resolveIdx_of_lookup_some st n i hi]
  simp [lookup0, hi]

/-- When both derived names are already registered, `updateCar` leaves the
registry untouched and performs exactly its two writes. -/
theorem updateCar_stable (carPoly : CarPolyFn) (st : ChartData) (n : String)
    (pt : Pt) (bag : PropBag)
    (h1 : arrowNameOf n ∈ st.name2idx.map Prod.fst)
    (h2 : carBoxName n ∈ st.name2idx.map Prod.fst) :
    (updateCar carPoly st n pt bag).1.name2idx = st.name2idx ∧
    (updateCar carPoly st n pt bag).1.datasets =
      applyWriteD (applyWriteD st.datasets
        ⟨lookup0 st.name2idx (arrowNameOf n), arrowNameOf n, mutateCarProps bag,
          .pts [pt]⟩)
        ⟨lookup0 st.name2idx (carBoxName n), carBoxName n,
          carBoxProps (mutateCarProps bag), .pts (carPoly pt.x pt.y pt.heading)⟩ := by
  obtain ⟨i, hi⟩ := mem_keys_lookup _ _ h1
  obtain ⟨j, hj⟩ := mem_keys_lookup _ _ h2
  have l0a : lookup0 st.name2idx (arrowNameOf n) = i := by simp [lookup0, hi]
  have l0b : lookup0 st.name2idx (carBoxName n) = j := by simp [lookup0, hj]
  have key1 := resolveIdx_of_lookup_some st (arrowNameOf n) i hi
  have hAm : (updateData st i (arrowNameOf n) (mutateCarProps bag)
      (.pts [pt])).name2idx = st.name2idx := updateData_name2idx _ _ _ _ _
  have key2 := resolveIdx_of_lookup_some
    (updateData st i (arrowNameOf n) (mutateCarProps bag) (.pts [pt])) (carBoxName n) j
    (by rw [hAm]; exact hj)
  refine ⟨?_, ?_⟩ <;>
    simp only [updateCar, key1, key2, updateData_name2idx, updateData_datasets,
      l0a, l0b]

/-- When every derived car name is already registered, the cars loop leaves
the registry untouched and folds exactly its write list. -/
theorem processCars_stable (carPoly : CarPolyFn) (dcars : List (String × Pt)) :
    ∀ (bags : List (String × PropBag)) (st : ChartData),
    (∀ nb ∈ bags, arrowNameOf nb.1 ∈ st.name2idx.map Prod.fst ∧
      carBoxName nb.1 ∈ st.name2idx.map Prod.fst) →
    (processCars carPoly dcars st bags).1.name2idx = st.name2idx ∧
    (processCars carPoly dcars st bags).1.datasets =
      (carWrites carPoly st.name2idx dcars bags).foldl applyWriteD st.datasets := by
  intro bags
  induction bags with
  | nil =>
    intro st _
    exact ⟨rfl, rfl⟩
  | cons nb rest ih =>
    intro st hmem
    obtain ⟨hm1, hm2⟩ := hmem nb (List.mem_cons_self _ _)
    obtain ⟨em, ed⟩ := updateCar_stable carPoly st nb.1 (lookupPt dcars nb.1) nb.2 hm1 hm2
    obtain ⟨rm, rd⟩ := ih (updateCar carPoly st nb.1 (lookupPt dcars nb.1) nb.2).1
      (by
        intro q hq
        rw [em]
        exact hmem q (List.mem_cons_of_mem _ hq))
    constructor
    · show (processCars carPoly dcars
        (updateCar carPoly st nb.1 (lookupPt dcars nb.1) nb.2).1 rest).1.name2idx = _
      rw [rm, em]
    · show (processCars carPoly dcars
        (updateCar carPoly st nb.1 (lookupPt dcars nb.1) nb.2).1 rest).1.datasets = _
      rw [rd, em, ed]
      rfl

/-- When every line name is already registered, the lines loop leaves the
registry untouched and folds exactly its write list. -/
theorem processLines_stable (dlines : List (String × JVal)) :
    ∀ (bags : List (String × PropBag)) (st : ChartData),
    (∀ nb ∈ bags, nb.1 ∈ st.name2idx.map Prod.fst) →
    (processLines dlines st bags).name2idx = st.name2idx ∧
    (processLines dlines st bags).datasets =
      (lineWrites st.name2idx dlines bags).foldl applyWriteD st.datasets := by
  intro bags
  induction bags with
  | nil =>
    intro st _
    exact ⟨rfl, rfl⟩
  | cons nb rest ih =>
    intro st hmem
    have e1 := resolveIdx_of_mem st nb.1 (hmem nb (List.mem_cons_self _ _))
    have hst2m : (updateData (resolveIdx st nb.1).1 (resolveIdx st nb.1).2 nb.1 nb.2
        (lookupJD dlines nb.1 (.pts []))).name2idx = st.name2idx := by
      rw [updateData_name2idx, e1]
    obtain ⟨rm, rd⟩ := ih (updateData (resolveIdx st nb.1).1 (resolveIdx st nb.1).2
      nb.1 nb.2 (lookupJD dlines nb.1 (.pts [])))
      (by
        intro q hq
        rw [hst2m]
        exact hmem q (List.mem_cons_of_mem _ hq))
    constructor
    · show (processLines dlines (updateData (resolveIdx st nb.1).1
        (resolveIdx st nb.1).2 nb.1 nb.2 (lookupJD dlines nb.1 (.pts []))) rest).name2idx = _
      rw [rm, hst2m]
    · show (processLines dlines (updateData (resolveIdx st nb.1).1
        (resolveIdx st nb.1).2 nb.1 nb.2 (lookupJD dlines nb.1 (.pts []))) rest).datasets = _
      rw [rd, hst2m, updateData_datasets, e1]
      rfl

/-- The polygons loop always folds exactly its write list over the series. -/
theorem processPolys_datasets (pprops : List (String × PropBag)) :
    ∀ (polys : List (String × JVal)) (st : ChartData) (i0 : Nat),
    (processPolys pprops st i0 polys).1.datasets =
      (polyWrites pprops i0 polys).foldl applyWriteD st.datasets := by
  intro polys
  induction polys with
  | nil =>
    intro st i0
    rfl
  | cons nv rest ih =>
    intro st i0
    by_cases ht : truthy nv.2
    · rw [processPolys, if_pos ht, ih, polyWrites, if_pos ht, List.foldl_cons,
        updateData_datasets]
    · rw [processPolys, if_neg ht, polyWrites, if_neg ht, ih]

/-- Second run of a frame: when every name is already registered, the
registry is untouched and the loops fold the same write list. -/
theorem chartPhases_stable (carPoly : CarPolyFn) (st : ChartData) (db : DataBundle)
    (pb : PropBundle)
    (hc : ∀ nb ∈ pb.cars, arrowNameOf nb.1 ∈ st.name2idx.map Prod.fst ∧
      carBoxName nb.1 ∈ st.name2idx.map Prod.fst)
    (hl : ∀ nb ∈ pb.lines, nb.1 ∈ st.name2idx.map Prod.fst)
    (Hstart : st.name2idx.length ≤ st.datasets.length) :
    (chartPhases carPoly st db pb).1.name2idx = st.name2idx ∧
    (chartPhases carPoly st db pb).1.datasets =
      (frameWrites carPoly st.name2idx db pb).foldl applyWriteD st.datasets ∧
    (chartPhases carPoly st db pb).2 = st.name2idx.length + qCount db := by
  obtain ⟨mC, dC⟩ := processCars_stable carPoly db.cars pb.cars st hc
  obtain ⟨mL, dL⟩ := processLines_stable db.lines pb.lines
    (processCars carPoly db.cars st pb.cars).1
    (by
      intro q hq
      rw [mC]
      exact hl q hq)
  have mCL : (processLines db.lines (processCars carPoly db.cars st pb.cars).1
      pb.lines).name2idx = st.name2idx := by
    rw [mL, mC]
  have dCL : (processLines db.lines (processCars carPoly db.cars st pb.cars).1
      pb.lines).datasets =
      ((carWrites carPoly st.name2idx db.cars pb.cars ++
        lineWrites st.name2idx db.lines pb.lines).foldl applyWriteD st.datasets) := by
    rw [List.foldl_append, ← dC, dL, mC]
  have hlen : st.datasets.length ≤
      (processLines db.lines (processCars carPoly db.cars st pb.cars).1
        pb.lines).datasets.length := by
    rw [dCL]
    exact foldl_applyWriteD_length_ge _ _
  cases hpoly : db.polygons with
  | none =>
    rw [chartPhases_eq_none carPoly st db pb hpoly,
      frameWrites_eq_none carPoly _ db pb hpoly, qCount_eq_none db hpoly]
    refine ⟨mCL, dCL, ?_⟩
    rw [Nat.add_zero, mCL]
  | some polys =>
    obtain ⟨sP1, sP2, _⟩ := processPolys_spec pb.polygons polys
      (processLines db.lines (processCars carPoly db.cars st pb.cars).1 pb.lines)
      st.name2idx.length (le_trans Hstart hlen)
    have dP := processPolys_datasets pb.polygons polys
      (processLines db.lines (processCars carPoly db.cars st pb.cars).1 pb.lines)
      st.name2idx.length
    rw [chartPhases_eq_some carPoly st db pb polys hpoly,
      frameWrites_eq_some carPoly _ db pb polys hpoly, qCount_eq_some db polys hpoly,
      mCL]
    refine ⟨?_, ?_, sP2⟩
    · rw [sP1, mCL]
    · rw [dP, List.foldl_append, ← dCL]

theorem mem_keys_mono {m1 m2 : List (String × Nat)} (h : m1 <+: m2)
    {k : String} (hk : k ∈ m1.map Prod.fst) : k ∈ m2.map Prod.fst := by
  obtain ⟨t, rfl⟩ := h
  rw [List.map_append]
  exact List.mem_append_left _ hk

theorem resolveIdx_mem_self (st : ChartData) (n : String) :
    n ∈ (resolveIdx st n).1.name2idx.map Prod.fst := by
  unfold resolveIdx
  cases h : lookupIdx st.name2idx n with
  | some i =>
    have := lookupIdx_mem st.name2idx n i h
    exact List.mem_map_of_mem Prod.fst this
  | none => simp

/-- `updateCar` leaves both derived names registered. -/
theorem updateCar_mem (carPoly : CarPolyFn) (st : ChartData) (n : String) (pt : Pt)
    (bag : PropBag) :
    arrowNameOf n ∈ (updateCar carPoly st n pt bag).1.name2idx.map Prod.fst ∧
    carBoxName n ∈ (updateCar carPoly st n pt bag).1.name2idx.map Prod.fst := by
  have e4 : (updateCar carPoly st n pt bag).1.name2idx =
      (resolveIdx (updateData (resolveIdx st (arrowNameOf n)).1
        (resolveIdx st (arrowNameOf n)).2 (arrowNameOf n) (mutateCarProps bag)
        (.pts [pt])) (carBoxName n)).1.name2idx := by
    show (updateData _ _ _ _ _).name2idx = _
    rw [updateData_name2idx]
  rw [e4]
  constructor
  · have h1 := resolveIdx_mem_self st (arrowNameOf n)
    have hpre : (resolveIdx st (arrowNameOf n)).1.name2idx <+:
        (resolveIdx (updateData (resolveIdx st (arrowNameOf n)).1
          (resolveIdx st (arrowNameOf n)).2 (arrowNameOf n) (mutateCarProps bag)
          (.pts [pt])) (carBoxName n)).1.name2idx := by
      have := resolveIdx_map_grows (updateData (resolveIdx st (arrowNameOf n)).1
        (resolveIdx st (arrowNameOf n)).2 (arrowNameOf n) (mutateCarProps bag)
        (.pts [pt])) (carBoxName n)
      rw [updateData_name2idx] at this
      exact this
    exact mem_keys_mono hpre h1
  · exact resolveIdx_mem_self _ (carBoxName n)

/-- After the cars loop, every derived car name is registered. -/
theorem processCars_mem (carPoly : CarPolyFn) (dcars : List (String × Pt)) :
    ∀ (bags : List (String × PropBag)) (st : ChartData), ∀ nb ∈ bags,
    arrowNameOf nb.1 ∈ (processCars carPoly dcars st bags).1.name2idx.map Prod.fst ∧
    carBoxName nb.1 ∈ (processCars carPoly dcars st bags).1.name2idx.map Prod.fst := by
  intro bags
  induction bags with
  | nil =>
    intro st nb hnb
    exact absurd hnb (List.not_mem_nil nb)
  | cons nb0 rest ih =>
    intro st nb hnb
    rcases List.mem_cons.mp hnb with rfl | hnb2
    · obtain ⟨ha, hb⟩ := updateCar_mem carPoly st nb.1 (lookupPt dcars nb.1) nb.2
      have hpre : (updateCar carPoly st nb.1 (lookupPt dcars nb.1) nb.2).1.name2idx <+:
          (processCars carPoly dcars
            (updateCar carPoly st nb.1 (lookupPt dcars nb.1) nb.2).1 rest).1.name2idx :=
        processCars_map_grows carPoly dcars _ rest
      exact ⟨mem_keys_mono hpre ha, mem_keys_mono hpre hb⟩
    · exact ih (updateCar carPoly st nb0.1 (lookupPt dcars nb0.1) nb0.2).1 nb hnb2

/-- After the lines loop, every line name is registered. -/
theorem processLines_mem (dlines : List (String × JVal)) :
    ∀ (bags : List (String × PropBag)) (st : ChartData), ∀ nb ∈ bags,
    nb.1 ∈ (processLines dlines st bags).name2idx.map Prod.fst := by
  intro bags
  induction bags with
  | nil =>
    intro st nb hnb
    exact absurd hnb (List.not_mem_nil nb)
  | cons nb0 rest ih =>
    intro st nb hnb
    rcases List.mem_cons.mp hnb with rfl | hnb2
    · have h1 := resolveIdx_mem_self st nb.1
      have hpre : (resolveIdx st nb.1).1.name2idx <+:
          (processLines dlines (updateData (resolveIdx st nb.1).1
            (resolveIdx st nb.1).2 nb.1 nb.2 (lookupJD dlines nb.1 (.pts []))) rest).name2idx := by
        have := processLines_map_grows dlines (updateData (resolveIdx st nb.1).1
          (resolveIdx st nb.1).2 nb.1 nb.2 (lookupJD dlines nb.1 (.pts []))) rest
        rw [updateData_name2idx] at this
        exact this
      exact mem_keys_mono hpre h1
    · exact ih (updateData (resolveIdx st nb0.1).1 (resolveIdx st nb0.1).2 nb0.1 nb0.2
        (lookupJD dlines nb0.1 (.pts []))) nb hnb2

/-- Every name of an accepted frame is registered in the final registry. -/
theorem finalMap_mem (carPoly : CarPolyFn) (st : ChartData) (db : DataBundle)
    (pb : PropBundle) :
    (∀ nb ∈ pb.cars, arrowNameOf nb.1 ∈ (finalMap carPoly st db pb).map Prod.fst ∧
      carBoxName nb.1 ∈ (finalMap carPoly st db pb).map Prod.fst) ∧
    (∀ nb ∈ pb.lines, nb.1 ∈ (finalMap carPoly st db pb).map Prod.fst) := by
  constructor
  · intro nb hnb
    obtain ⟨ha, hb⟩ := processCars_mem carPoly db.cars pb.cars st nb hnb
    have hpre : (processCars carPoly db.cars st pb.cars).1.name2idx <+:
        finalMap carPoly st db pb :=
      processLines_map_grows db.lines _ pb.lines
    exact ⟨mem_keys_mono hpre ha, mem_keys_mono hpre hb⟩
  · intro nb hnb
    exact processLines_mem db.lines pb.lines
      (processCars carPoly db.cars st pb.cars).1 nb hnb

theorem applyProp_text (d : Dataset) (kv : String × JVal) (h : kv.1 ≠ "text") :
    (applyProp d kv).text = d.text := by
  unfold applyProp
  simp [apply_ite Dataset.text, h]

theorem applyProp_data (d : Dataset) (kv : String × JVal) (h : kv.1 ≠ "data") :
    (applyProp d kv).data = d.data := by
  unfold applyProp
  simp [apply_ite Dataset.data, h]

theorem foldl_applyProp_text (props : PropBag) :
    ∀ base : Dataset, (∀ kv ∈ props, kv.1 ≠ "text") →
      (props.foldl applyProp base).text = base.text := by
  induction props with
  | nil =>
    intro base _
    rfl
  | cons kv rest ih =>
    intro base h
    rw [List.foldl_cons, ih _ fun q hq => h q (List.mem_cons_of_mem _ hq),
      applyProp_text base kv (h kv (List.mem_cons_self _ _))]

theorem foldl_applyProp_data (props : PropBag) :
    ∀ base : Dataset, (∀ kv ∈ props, kv.1 ≠ "data") →
      (props.foldl applyProp base).data = base.data := by
  induction props with
  | nil =>
    intro base _
    rfl
  | cons kv rest ih =>
    intro base h
    rw [List.foldl_cons, ih _ fun q hq => h q (List.mem_cons_of_mem _ hq),
      applyProp_data base kv (h kv (List.mem_cons_self _ _))]

theorem newConfig_text (name : String) (props : PropBag) (d : JVal)
    (h : ∀ kv ∈ props, kv.1 ≠ "text") : (newConfig name props d).text = .str name := by
  unfold newConfig
  rw [foldl_applyProp_text props _ h]

theorem newConfig_data (name : String) (props : PropBag) (d : JVal)
    (h : ∀ kv ∈ props, kv.1 ≠ "data") : (newConfig name props d).data = d := by
  unfold newConfig
  rw [foldl_applyProp_data props _ h]

/-- Overwriting `text`/`data` twice keeps only the last pair. -/
theorem setTextData_setTextData (n n2 : String) (d d2 : JVal) (ds : Dataset) :
    setTextData n d (setTextData n2 d2 ds) = setTextData n d ds := rfl

/-- A slot already carrying the write's `text`/`data` is left unchanged. -/
theorem setTextData_self (n : String) (d : JVal) (ds : Dataset)
    (h1 : ds.text = .str n) (h2 : ds.data = d) : setTextData n d ds = ds := by
  cases ds
  simp only [setTextData] at *
  rw [← h1, ← h2]

theorem applyWriteD_getElem_lt_ne (D : List Dataset) (w : WriteD) (s : Nat)
    (hs : s < D.length) (hne : w.idx ≠ s) : (applyWriteD D w)[s]? = D[s]? := by
  unfold applyWriteD
  cases h : D[w.idx]? with
  | some ds => exact List.getElem?_set_ne hne
  | none => exact List.getElem?_append_left hs

theorem applyWriteD_getElem_self (D : List Dataset) (w : WriteD)
    (hs : w.idx < D.length) :
    (applyWriteD D w)[w.idx]? = some (setTextData w.name w.wdata D[w.idx]) := by
  unfold applyWriteD
  rw [List.getElem?_eq_getElem hs]
  exact List.getElem?_set_self hs

theorem applyWriteD_length_lt (D : List Dataset) (w : WriteD) (s : Nat)
    (hs : s < D.length) : s < (applyWriteD D w).length :=
  lt_of_lt_of_le hs (applyWriteD_length_ge D w)

/-- The last write landing on a given slot (later writes take precedence). -/
def lastWriteAt : List WriteD → Nat → Option WriteD
  | [], _ => none
  | w :: ws, s =>
    match lastWriteAt ws s with
    | some v => some v
    | none => if w.idx = s then some w else none

theorem fold_preserve (W : List WriteD) :
    ∀ (D : List Dataset) (s : Nat), s < D.length → lastWriteAt W s = none →
    (W.foldl applyWriteD D)[s]? = D[s]? := by
  induction W with
  | nil =>
    intro D s _ _
    rfl
  | cons w ws ih =>
    intro D s hs hlw
    rw [lastWriteAt] at hlw
    cases hrec : lastWriteAt ws s with
    | some v => rw [hrec] at hlw; exact Option.noConfusion hlw
    | none =>
      rw [hrec] at hlw
      have hne : w.idx ≠ s := by
        intro he
        rw [if_pos he] at hlw
        exact Option.noConfusion hlw
      rw [List.foldl_cons, ih (applyWriteD D w) s (applyWriteD_length_lt D w s hs) hrec,
        applyWriteD_getElem_lt_ne D w s hs hne]

theorem fold_lastWrite (W : List WriteD) :
    ∀ (D : List Dataset) (s : Nat) (w : WriteD), s < D.length →
    lastWriteAt W s = some w →
    (W.foldl applyWriteD D)[s]? = (D[s]?).map (setTextData w.name w.wdata) := by
  induction W with
  | nil =>
    intro D s w _ hlw
    exact Option.noConfusion hlw
  | cons w0 ws ih =>
    intro D s w hs hlw
    rw [lastWriteAt] at hlw
    cases hrec : lastWriteAt ws s with
    | some v =>
      rw [hrec] at hlw
      cases hlw
      rw [List.foldl_cons, ih (applyWriteD D w0) s w (applyWriteD_length_lt D w0 s hs) hrec]
      by_cases he : w0.idx = s
      · subst he
        rw [applyWriteD_getElem_self D w0 hs, List.getElem?_eq_getElem hs]
        simp [setTextData_setTextData]
      · rw [applyWriteD_getElem_lt_ne D w0 s hs he]
    | none =>
      rw [hrec] at hlw
      by_cases he : w0.idx = s
      · rw [if_pos he] at hlw
        cases hlw
        subst he
        rw [List.foldl_cons, fold_preserve ws (applyWriteD D w0) w0.idx
          (applyWriteD_length_lt D w0 w0.idx hs) hrec,
          applyWriteD_getElem_self D w0 hs, List.getElem?_eq_getElem hs]
        rfl
      · rw [if_neg he] at hlw
        exact Option.noConfusion hlw

/-- Along an aligned run with clean style bags, the slot a last writer
targets ends up carrying exactly that writer's `text`/`data`. -/
theorem fold_slot_fixpoint (W : List WriteD) :
    ∀ (D : List Dataset), Aligned W D →
    (∀ w ∈ W, ∀ kv ∈ w.props, kv.1 ≠ "text" ∧ kv.1 ≠ "data") →
    ∀ (s : Nat) (w : WriteD), lastWriteAt W s = some w →
    ∀ ds : Dataset, (W.foldl applyWriteD D)[s]? = some ds →
    setTextData w.name w.wdata ds = ds := by
  induction W with
  | nil =>
    intro D _ _ s w hlw
    exact absurd hlw (by rw [lastWriteAt]; exact Option.noConfusion)
  | cons w0 ws ih =>
    intro D hA hclean s w hlw ds hds
    obtain ⟨h0, hA2⟩ := hA
    rw [lastWriteAt] at hlw
    cases hrec : lastWriteAt ws s with
    | some v =>
      rw [hrec] at hlw
      cases hlw
      exact ih (applyWriteD D w0) hA2
        (fun q hq => hclean q (List.mem_cons_of_mem _ hq)) s w hrec ds hds
    | none =>
      rw [hrec] at hlw
      by_cases he : w0.idx = s
      · rw [if_pos he] at hlw
        cases hlw
        subst he
        have hsD : w0.idx < (applyWriteD D w0).length := by
          unfold applyWriteD
          cases hD : D[w0.idx]? with
          | some x =>
            rw [List.length_set]
            exact (List.getElem?_eq_some.mp hD).1
          | none =>
            rw [List.length_append, List.length_singleton]
            omega
        rw [List.foldl_cons, fold_preserve ws (applyWriteD D w0) w0.idx hsD hrec] at hds
        cases hD : D[w0.idx]? with
        | some x =>
          have hlt : w0.idx < D.length := (List.getElem?_eq_some.mp hD).1
          rw [applyWriteD_getElem_self D w0 hlt] at hds
          cases hds
          rw [setTextData_setTextData]
        | none =>
          have hge : D.length ≤ w0.idx := by
            by_contra hcon
            rw [List.getElem?_eq_getElem (by omega)] at hD
            exact Option.noConfusion hD
          have heq : w0.idx = D.length := le_antisymm (by omega) hge
          have : (applyWriteD D w0)[w0.idx]? = some (newConfig w0.name w0.props w0.wdata) := by
            unfold applyWriteD
            rw [hD, heq]
            exact List.getElem?_concat_length _ _
          rw [this] at hds
          cases hds
          obtain ⟨hct, hcd⟩ :
              (∀ kv ∈ w0.props, kv.1 ≠ "text") ∧ (∀ kv ∈ w0.props, kv.1 ≠ "data") := by
            have := hclean w0 (List.mem_cons_self _ _)
            exact ⟨fun kv hkv => (this kv hkv).1, fun kv hkv => (this kv hkv).2⟩
          exact setTextData_self _ _ _ (newConfig_text _ _ _ hct) (newConfig_data _ _ _ hcd)
      · rw [if_neg he] at hlw
        exact Option.noConfusion hlw

/-- Replaying an aligned, clean write list over its own truncated result
changes nothing: every kept slot already carries its last writer's
`text`/`data`, and overflow writes land beyond the cut. -/
theorem fold_take_fixpoint (W : List WriteD) (D0 : List Dataset) (K : Nat)
    (hA : Aligned W D0)
    (hclean : ∀ w ∈ W, ∀ kv ∈ w.props, kv.1 ≠ "text" ∧ kv.1 ≠ "data")
    (hK : K ≤ (W.foldl applyWriteD D0).length) :
    (W.foldl applyWriteD ((W.foldl applyWriteD D0).take K)).take K =
      (W.foldl applyWriteD D0).take K := by
  have hlen1 : ((W.foldl applyWriteD D0).take K).length = K := by
    rw [List.length_take]
    omega
  apply List.ext_getElem?
  intro s
  by_cases hs : s < K
  · rw [List.getElem?_take_of_lt hs, List.getElem?_take_of_lt hs]
    cases hlw : lastWriteAt W s with
    | none =>
      rw [fold_preserve W _ s (by omega) hlw]
      exact List.getElem?_take_of_lt hs
    | some w =>
      rw [fold_lastWrite W _ s w (by omega) hlw]
      cases hD1 : ((W.foldl applyWriteD D0).take K)[s]? with
      | none =>
        rw [List.getElem?_eq_none_iff] at hD1
        omega
      | some ds =>
        have hds : (W.foldl applyWriteD D0)[s]? = some ds := by
          rw [← List.getElem?_take_of_lt hs]
          exact hD1
        rw [Option.map_some', fold_slot_fixpoint W D0 hA hclean s w hlw ds hds]
        exact hds.symm
  · have h1 : ((W.foldl applyWriteD ((W.foldl applyWriteD D0).take K)).take K)[s]? = none := by
      rw [List.getElem?_eq_none_iff, List.length_take]
      omega
    have h2 : (((W.foldl applyWriteD D0).take K))[s]? = none := by
      rw [List.getElem?_eq_none_iff]
      omega
    rw [h1, h2]

theorem bagSet_bagSet_same (b : PropBag) (k : String) (v v2 : JVal) :
    bagSet (bagSet b k v) k v2 = bagSet b k v2 := by
  induction b with
  | nil => simp [bagSet]
  | cons kv rest ih =>
    by_cases h : kv.1 = k
    · simp [bagSet, h]
    · simp [bagSet, h, ih]

/-- Assigning a key the value it already holds leaves the bag unchanged. -/
theorem bagSet_of_bagGet (b : PropBag) (k : String) (v : JVal)
    (hmem : k ∈ b.map Prod.fst) (h : bagGet b k = v) : bagSet b k v = b := by
  induction b with
  | nil => exact absurd hmem (by simp)
  | cons kv rest ih =>
    by_cases h0 : kv.1 = k
    · rw [bagGet, if_pos h0] at h
      rw [bagSet, if_pos h0, ← h]
    · rw [bagGet, if_neg h0] at h
      have hm2 : k ∈ rest.map Prod.fst := by
        rcases List.mem_cons.mp hmem with he | hm
        · exact absurd he.symm h0
        · exact hm
      rw [bagSet, if_neg h0, ih hm2 h]

theorem mem_keys_bagSet_self (b : PropBag) (k : String) (v : JVal) :
    k ∈ (bagSet b k v).map Prod.fst := by
  induction b with
  | nil => simp [bagSet]
  | cons kv rest ih =>
    by_cases h0 : kv.1 = k
    · simp [bagSet, h0]
    · simp only [bagSet, if_neg h0, List.map_cons, List.mem_cons]
      exact Or.inr ih

theorem mem_keys_bagSet_of_mem (b : PropBag) (k k2 : String) (v : JVal)
    (h : k2 ∈ b.map Prod.fst) : k2 ∈ (bagSet b k v).map Prod.fst := by
  induction b with
  | nil => exact absurd h (by simp)
  | cons kv rest ih =>
    by_cases h0 : kv.1 = k
    · simpa [bagSet, h0] using h
    · simp only [bagSet, if_neg h0, List.map_cons, List.mem_cons]
      rcases List.mem_cons.mp h with he | hm
      · exact Or.inl he
      · exact Or.inr (ih hm)

/-- The in-place mutation `updateCar` performs is idempotent. -/
theorem mutateCarProps_idem (b : PropBag) :
    mutateCarProps (mutateCarProps b) = mutateCarProps b := by
  unfold mutateCarProps
  rw [bagSet_of_bagGet _ "specialMarker" (.str "car")
      (mem_keys_bagSet_of_mem _ _ _ _ (mem_keys_bagSet_of_mem _ _ _ _
        (mem_keys_bagSet_self _ _ _)))
      (by rw [bagGet_bagSet_other _ _ _ _ (by decide),
        bagGet_bagSet_other _ _ _ _ (by decide), bagGet_bagSet_same]),
    bagSet_of_bagGet _ "borderWidth" (.num 0)
      (mem_keys_bagSet_of_mem _ _ _ _ (mem_keys_bagSet_self _ _ _))
      (by rw [bagGet_bagSet_other _ _ _ _ (by decide), bagGet_bagSet_same]),
    bagSet_of_bagGet _ "pointRadius" (.num 0) (mem_keys_bagSet_self _ _ _)
      (bagGet_bagSet_same _ _ _)]

/-- The cars loop's writes are unchanged when the frame's car bags have
already been mutated once. -/
theorem carWrites_mutated (carPoly : CarPolyFn) (M : List (String × Nat))
    (dcars : List (String × Pt)) (bags : List (String × PropBag)) :
    carWrites carPoly M dcars (bags.map fun nb => (nb.1, mutateCarProps nb.2)) =
      carWrites carPoly M dcars bags := by
  induction bags with
  | nil => rfl
  | cons nb rest ih =>
    simp only [List.map_cons, carWrites, mutateCarProps_idem, ih]

theorem bagSet_keyFree (b : PropBag) (k : String) (v : JVal) (bad : String)
    (hb : ∀ kv ∈ b, kv.1 ≠ bad) (hk : k ≠ bad) :
    ∀ kv ∈ bagSet b k v, kv.1 ≠ bad := by
  induction b with
  | nil =>
    intro kv hkv
    simp only [bagSet, List.mem_singleton] at hkv
    subst hkv
    exact hk
  | cons kv0 rest ih =>
    intro kv hkv
    rw [bagSet] at hkv
    by_cases h0 : kv0.1 = k
    · rw [if_pos h0] at hkv
      rcases List.mem_cons.mp hkv with rfl | h2
      · exact h0 ▸ hb kv0 (List.mem_cons_self _ _)
      · exact hb kv (List.mem_cons_of_mem _ h2)
    · rw [if_neg h0] at hkv
      rcases List.mem_cons.mp hkv with rfl | h2
      · exact hb kv0 (List.mem_cons_self _ _)
      · exact ih (fun q hq => hb q (List.mem_cons_of_mem _ hq)) kv h2

theorem mutateCarProps_keyFree (b : PropBag) (bad : String)
    (hb : ∀ kv ∈ b, kv.1 ≠ bad) (h1 : "specialMarker" ≠ bad)
    (h2 : "borderWidth" ≠ bad) (h3 : "pointRadius" ≠ bad) :
    ∀ kv ∈ mutateCarProps b, kv.1 ≠ bad :=
  bagSet_keyFree _ _ _ _ (bagSet_keyFree _ _ _ _ (bagSet_keyFree _ _ _ _ hb h1) h2) h3

theorem carBoxProps_keyFree (b : PropBag) (bad : String)
    (h1 : "borderWidth" ≠ bad) (h2 : "pointRadius" ≠ bad) (h3 : "color" ≠ bad)
    (h4 : "showLine" ≠ bad) (h5 : "fill" ≠ bad) (h6 : "lineTension" ≠ bad) :
    ∀ kv ∈ carBoxProps b, kv.1 ≠ bad := by
  intro kv hkv
  simp only [carBoxProps, List.mem_cons, List.not_mem_nil, or_false] at hkv
  rcases hkv with rfl | rfl | rfl | rfl | rfl | rfl <;> assumption

theorem lookupBagD_keyFree (pprops : List (String × PropBag)) (n : String)
    (dflt : PropBag) (bad : String)
    (hp : ∀ nb ∈ pprops, ∀ kv ∈ nb.2, kv.1 ≠ bad)
    (hd : ∀ kv ∈ dflt, kv.1 ≠ bad) :
    ∀ kv ∈ lookupBagD pprops n dflt, kv.1 ≠ bad := by
  induction pprops with
  | nil => exact hd
  | cons nb rest ih =>
    rw [lookupBagD]
    by_cases h : nb.1 = n
    · rw [if_pos h]
      exact hp nb (List.mem_cons_self _ _)
    · rw [if_neg h]
      exact ih fun q hq => hp q (List.mem_cons_of_mem _ hq)

theorem defaultPolygonProperties_keyFree :
    ∀ kv ∈ defaultPolygonProperties, kv.1 ≠ "text" ∧ kv.1 ≠ "data" := by
  intro kv hkv
  simp only [defaultPolygonProperties, List.mem_cons, List.not_mem_nil, or_false] at hkv
  rcases hkv with rfl | rfl | rfl | rfl | rfl | rfl | rfl | rfl <;> exact ⟨by decide, by decide⟩

/-- Clean style bundles: no reserved `text`/`data` key in any bag. -/
def cleanPB (pb : PropBundle) : Prop :=
  (∀ nb ∈ pb.cars, ∀ kv ∈ nb.2, kv.1 ≠ "text" ∧ kv.1 ≠ "data") ∧
  (∀ nb ∈ pb.lines, ∀ kv ∈ nb.2, kv.1 ≠ "text" ∧ kv.1 ≠ "data") ∧
  (∀ nb ∈ pb.polygons, ∀ kv ∈ nb.2, kv.1 ≠ "text" ∧ kv.1 ≠ "data")

instance (pb : PropBundle) : Decidable (cleanPB pb) := by
  unfold cleanPB
  infer_instance

theorem carWrites_clean (carPoly : CarPolyFn) (M : List (String × Nat))
    (dcars : List (String × Pt)) (bags : List (String × PropBag))
    (hb : ∀ nb ∈ bags, ∀ kv ∈ nb.2, kv.1 ≠ "text" ∧ kv.1 ≠ "data") :
    ∀ w ∈ carWrites carPoly M dcars bags, ∀ kv ∈ w.props,
      kv.1 ≠ "text" ∧ kv.1 ≠ "data" := by
  induction bags with
  | nil =>
    intro w hw
    exact absurd hw (List.not_mem_nil w)
  | cons nb rest ih =>
    intro w hw
    have hmt : ∀ kv ∈ mutateCarProps nb.2, kv.1 ≠ "text" :=
      mutateCarProps_keyFree nb.2 "text"
        (fun q hq => (hb nb (List.mem_cons_self _ _) q hq).1)
        (by decide) (by decide) (by decide)
    have hmd : ∀ kv ∈ mutateCarProps nb.2, kv.1 ≠ "data" :=
      mutateCarProps_keyFree nb.2 "data"
        (fun q hq => (hb nb (List.mem_cons_self _ _) q hq).2)
        (by decide) (by decide) (by decide)
    rw [carWrites] at hw
    rcases List.mem_cons.mp hw with rfl | hw2
    · exact fun kv hkv => ⟨hmt kv hkv, hmd kv hkv⟩
    rcases List.mem_cons.mp hw2 with rfl | hw3
    · intro kv hkv
      exact ⟨carBoxProps_keyFree _ "text" (by decide) (by decide) (by decide)
          (by decide) (by decide) (by decide) kv hkv,
        carBoxProps_keyFree _ "data" (by decide) (by decide) (by decide)
          (by decide) (by decide) (by decide) kv hkv⟩
    · exact ih (fun q hq => hb q (List.mem_cons_of_mem _ hq)) w hw3

theorem lineWrites_clean (M : List (String × Nat)) (dlines : List (String × JVal))
    (bags : List (String × PropBag))
    (hb : ∀ nb ∈ bags, ∀ kv ∈ nb.2, kv.1 ≠ "text" ∧ kv.1 ≠ "data") :
    ∀ w ∈ lineWrites M dlines bags, ∀ kv ∈ w.props,
      kv.1 ≠ "text" ∧ kv.1 ≠ "data" := by
  induction bags with
  | nil =>
    intro w hw
    exact absurd hw (List.not_mem_nil w)
  | cons nb rest ih =>
    intro w hw
    rw [lineWrites] at hw
    rcases List.mem_cons.mp hw with rfl | hw2
    · exact hb nb (List.mem_cons_self _ _)
    · exact ih (fun q hq => hb q (List.mem_cons_of_mem _ hq)) w hw2

theorem polyWrites_clean (pprops : List (String × PropBag))
    (hp : ∀ nb ∈ pprops, ∀ kv ∈ nb.2, kv.1 ≠ "text" ∧ kv.1 ≠ "data") :
    ∀ (polys : List (String × JVal)) (i0 : Nat),
    ∀ w ∈ polyWrites pprops i0 polys, ∀ kv ∈ w.props,
      kv.1 ≠ "text" ∧ kv.1 ≠ "data" := by
  intro polys
  induction polys with
  | nil =>
    intro i0 w hw
    exact absurd hw (List.not_mem_nil w)
  | cons nv rest ih =>
    intro i0 w hw
    rw [polyWrites] at hw
    by_cases ht : truthy nv.2
    · rw [if_pos ht] at hw
      rcases List.mem_cons.mp hw with rfl | hw2
      · intro kv hkv
        exact ⟨lookupBagD_keyFree pprops nv.1 defaultPolygonProperties "text"
            (fun q hq r hr => (hp q hq r hr).1)
            (fun q hq => (defaultPolygonProperties_keyFree q hq).1) kv hkv,
          lookupBagD_keyFree pprops nv.1 defaultPolygonProperties "data"
            (fun q hq r hr => (hp q hq r hr).2)
            (fun q hq => (defaultPolygonProperties_keyFree q hq).2) kv hkv⟩
      · exact ih (i0 + 1) w hw2
    · rw [if_neg ht] at hw
      exact ih i0 w hw

/-- Every write of a clean frame carries a clean style bag. -/
theorem frameWrites_clean (carPoly : CarPolyFn) (M : List (String × Nat))
    (db : DataBundle) (pb : PropBundle) (hc : cleanPB pb) :
    ∀ w ∈ frameWrites carPoly M db pb, ∀ kv ∈ w.props,
      kv.1 ≠ "text" ∧ kv.1 ≠ "data" := by
  obtain ⟨h1, h2, h3⟩ := hc
  intro w hw
  unfold frameWrites at hw
  rcases List.mem_append.mp hw with hw1 | hwp
  · rcases List.mem_append.mp hw1 with hwc | hwl
    · exact carWrites_clean carPoly M db.cars pb.cars h1 w hwc
    · exact lineWrites_clean M db.lines pb.lines h2 w hwl
  · cases hpoly : db.polygons with
    | none =>
      rw [hpoly] at hwp
      exact absurd hwp (List.not_mem_nil w)
    | some polys =>
      rw [hpoly] at hwp
      exact polyWrites_clean pb.polygons h3 polys M.length w hwp

/-- Flooring the midpoint of a symmetric window centred on an integer
returns the centre. -/
theorem floor_refix (x w : ℚ) :
    ((⌊((((⌊x⌋ : ℤ) : ℚ) + w / 2) + (((⌊x⌋ : ℤ) : ℚ) - w / 2)) / 2⌋ : ℤ) : ℚ) =
      ((⌊x⌋ : ℤ) : ℚ) := by
  rw [show ((((⌊x⌋ : ℤ) : ℚ) + w / 2) + (((⌊x⌋ : ℤ) : ℚ) - w / 2)) / 2 =
      ((⌊x⌋ : ℤ) : ℚ) from by ring, Int.floor_intCast]

/-- `updateTickWindow` is idempotent: a truthy fixed midpoint is reused
verbatim, and otherwise the floored midpoint of the window it itself
produced is the integer centre again. -/
theorem updateTickWindow_idem (s : Scale) (w : ℚ) (mv : JVal) :
    updateTickWindow (updateTickWindow s w mv) w mv = updateTickWindow s w mv := by
  obtain ⟨sid, shor, smin, smax⟩ := s
  cases mv with
  | num m =>
    by_cases hm : m ≠ 0
    · simp [updateTickWindow, hm]
    · simp only [ne_eq, not_not] at hm
      subst hm
      simp [updateTickWindow, floor_refix]
  | undef => simp [updateTickWindow, floor_refix]
  | str v => simp [updateTickWindow, floor_refix]
  | boolean v => simp [updateTickWindow, floor_refix]
  | pts l => simp [updateTickWindow, floor_refix]

/-- `syncXYWindowSize` is idempotent: it reads only the chart data and the
scale's identity, both untouched by its own update. -/
theorem syncXY_idem (s : Scale) (c : VChart) :
    syncXYWindowSize (syncXYWindowSize s c) c = syncXYWindowSize s c := by
  by_cases h : visiblePoints s c = []
  · have h1 : syncXYWindowSize s c = s := by
      unfold syncXYWindowSize
      rw [scanChart_char, h]
      rfl
    rw [h1, h1]
  · have hne1 : (visiblePoints s c).map Prod.fst ≠ [] := by
      simpa [List.map_eq_nil_iff] using h
    have hne2 : (visiblePoints s c).map Prod.snd ≠ [] := by
      simpa [List.map_eq_nil_iff] using h
    obtain ⟨mnx, hmnx⟩ := listMin_ne_nil _ hne1
    obtain ⟨mxx, hmxx⟩ := listMax_ne_nil _ hne1
    obtain ⟨mny, hmny⟩ := listMin_ne_nil _ hne2
    obtain ⟨mxy, hmxy⟩ := listMax_ne_nil _ hne2
    have hvp : visiblePoints (syncXYWindowSize s c) c = visiblePoints s c := by
      rw [syncXY_eval s c mnx mxx mny mxy hmnx hmxx hmny hmxy]
      rfl
    rw [syncXY_eval (syncXYWindowSize s c) c mnx mxx mny mxy
        (by rw [hvp]; exact hmnx) (by rw [hvp]; exact hmxx)
        (by rw [hvp]; exact hmny) (by rw [hvp]; exact hmxy),
      syncXY_eval s c mnx mxx mny mxy hmnx hmxx hmny hmxy]

/-- Each axis hook is idempotent against a fixed chart. -/
theorem runPolicy_idem (p : AxisPolicy) (s : Scale) (c : VChart) :
    runPolicy p (runPolicy p s c) c = runPolicy p s c := by
  cases p with
  | fixedWindow w mv => exact updateTickWindow_idem s w mv
  | autoFit => exact syncXY_idem s c
  | plain => rfl

theorem map_mutate_idem (bags : List (String × PropBag)) :
    ((bags.map fun nb => (nb.1, mutateCarProps nb.2)).map
        fun nb => (nb.1, mutateCarProps nb.2)) =
      bags.map fun nb => (nb.1, mutateCarProps nb.2) := by
  induction bags with
  | nil => rfl
  | cons nb rest ih => simp [mutateCarProps_idem, ih]

/-- One full pipeline pass is idempotent on healthy chart contents: the
second pass folds the same write list over its own truncated output, which
the fixpoint lemma collapses. -/
theorem updateChartCD_idem (carPoly : CarPolyFn) (st : ChartData) (f : Frame)
    (db : DataBundle) (pb : PropBundle) (hd : f.data = some db)
    (hp : f.properties = some pb)
    (Hlt : ∀ q ∈ st.name2idx, q.2 < st.datasets.length) (Hle : lenInv st)
    (Hclean : cleanPB pb) :
    updateChartCD carPoly (updateChartCD carPoly st f).1 (updateChartCD carPoly st f).2 =
      updateChartCD carPoly st f := by
  have run1 := updateChartCD_phases carPoly st f db pb hd hp
  obtain ⟨hm1, hd1, hA, hs1, hs2⟩ := chartPhases_RA carPoly st db pb Hlt Hle
  have hcd1 : (updateChartCD carPoly st f).1 =
      { name2idx := finalMap carPoly st db pb,
        datasets := ((frameWrites carPoly (finalMap carPoly st db pb) db pb).foldl
          applyWriteD st.datasets).take
          ((finalMap carPoly st db pb).length + qCount db) } := by
    rw [run1]
    show ({ name2idx := (chartPhases carPoly st db pb).1.name2idx,
            datasets := (chartPhases carPoly st db pb).1.datasets.take
              (chartPhases carPoly st db pb).2 } : ChartData) = _
    rw [hm1, hd1, hs1]
  have hK : (finalMap carPoly st db pb).length + qCount db ≤
      ((frameWrites carPoly (finalMap carPoly st db pb) db pb).foldl applyWriteD
        st.datasets).length := by
    rw [← hd1, ← hs1]
    exact hs2
  have hfix := fold_take_fixpoint (frameWrites carPoly (finalMap carPoly st db pb) db pb)
    st.datasets ((finalMap carPoly st db pb).length + qCount db) hA
    (frameWrites_clean carPoly (finalMap carPoly st db pb) db pb Hclean) hK
  have hf1 : (updateChartCD carPoly st f).2 =
      { f with properties := some { pb with
          cars := (processCars carPoly db.cars st pb.cars).2 } } := by
    rw [run1]
  have hf1d : (updateChartCD carPoly st f).2.data = some db := by
    rw [hf1]
    exact hd
  have hf1p : (updateChartCD carPoly st f).2.properties =
      some { pb with cars := (processCars carPoly db.cars st pb.cars).2 } := by
    rw [hf1]
  have run2 := updateChartCD_phases carPoly (updateChartCD carPoly st f).1
    (updateChartCD carPoly st f).2 db
    { pb with cars := (processCars carPoly db.cars st pb.cars).2 } hf1d hf1p
  have hmemc : ∀ nb ∈ ({ pb with
        cars := (processCars carPoly db.cars st pb.cars).2 } : PropBundle).cars,
      arrowNameOf nb.1 ∈ (updateChartCD carPoly st f).1.name2idx.map Prod.fst ∧
      carBoxName nb.1 ∈ (updateChartCD carPoly st f).1.name2idx.map Prod.fst := by
    intro nb hnb
    have hnb2 : nb ∈ pb.cars.map fun nb => (nb.1, mutateCarProps nb.2) := by
      have e : ({ pb with cars := (processCars carPoly db.cars st pb.cars).2 } :
          PropBundle).cars = pb.cars.map fun nb => (nb.1, mutateCarProps nb.2) :=
        processCars_snd carPoly db.cars st pb.cars
      rw [← e]
      exact hnb
    obtain ⟨nb0, hnb0, rfl⟩ := List.mem_map.mp hnb2
    have hmm := (finalMap_mem carPoly st db pb).1 nb0 hnb0
    rw [hcd1]
    exact hmm
  have hmeml : ∀ nb ∈ ({ pb with
        cars := (processCars carPoly db.cars st pb.cars).2 } : PropBundle).lines,
      nb.1 ∈ (updateChartCD carPoly st f).1.name2idx.map Prod.fst := by
    intro nb hnb
    have hmm := (finalMap_mem carPoly st db pb).2 nb hnb
    rw [hcd1]
    exact hmm
  have hstart : (updateChartCD carPoly st f).1.name2idx.length ≤
      (updateChartCD carPoly st f).1.datasets.length := by
    rw [hcd1]
    show (finalMap carPoly st db pb).length ≤
      (((frameWrites carPoly (finalMap carPoly st db pb) db pb).foldl applyWriteD
        st.datasets).take ((finalMap carPoly st db pb).length + qCount db)).length
    rw [List.length_take]
    omega
  obtain ⟨sm2, sd2, ss2⟩ := chartPhases_stable carPoly (updateChartCD carPoly st f).1
    db { pb with cars := (processCars carPoly db.cars st pb.cars).2 } hmemc hmeml hstart
  have hW2 : frameWrites carPoly (finalMap carPoly st db pb) db
      { pb with cars := (processCars carPoly db.cars st pb.cars).2 } =
      frameWrites carPoly (finalMap carPoly st db pb) db pb := by
    unfold frameWrites
    have e : ({ pb with cars := (processCars carPoly db.cars st pb.cars).2 } :
        PropBundle).cars = pb.cars.map fun nb => (nb.1, mutateCarProps nb.2) :=
      processCars_snd carPoly db.cars st pb.cars
    rw [e, carWrites_mutated]
  have run2x : updateChartCD carPoly (updateChartCD carPoly st f).1
      (updateChartCD carPoly st f).2 =
      (({ name2idx := (chartPhases carPoly (updateChartCD carPoly st f).1 db
            { pb with cars := (processCars carPoly db.cars st pb.cars).2 }).1.name2idx,
          datasets := (chartPhases carPoly (updateChartCD carPoly st f).1 db
            { pb with
              cars := (processCars carPoly db.cars st pb.cars).2 }).1.datasets.take
            (chartPhases carPoly (updateChartCD carPoly st f).1 db
              { pb with cars := (processCars carPoly db.cars st pb.cars).2 }).2 } :
          ChartData),
        ({ data := (updateChartCD carPoly st f).2.data,
           properties := some
             { cars := (processCars carPoly db.cars (updateChartCD carPoly st f).1
                 ({ pb with cars := (processCars carPoly db.cars st pb.cars).2 } :
                   PropBundle).cars).2,
               lines := pb.lines, polygons := pb.polygons } } : Frame)) := by
    rw [run2]
  have goal1 : ({ name2idx := (chartPhases carPoly (updateChartCD carPoly st f).1 db
                    { pb with cars := (processCars carPoly db.cars st pb.cars).2 }).1.name2idx,
                  datasets := (chartPhases carPoly (updateChartCD carPoly st f).1 db
                    { pb with
                      cars := (processCars carPoly db.cars st pb.cars).2 }).1.datasets.take
                    (chartPhases carPoly (updateChartCD carPoly st f).1 db
                      { pb with cars := (processCars carPoly db.cars st pb.cars).2 }).2 } :
      ChartData) = (updateChartCD carPoly st f).1 := by
    rw [sm2, sd2, ss2, hcd1]
    show ({ name2idx := finalMap carPoly st db pb,
            datasets := ((frameWrites carPoly (finalMap carPoly st db pb) db
              { pb with cars := (processCars carPoly db.cars st pb.cars).2 }).foldl
              applyWriteD (((frameWrites carPoly (finalMap carPoly st db pb) db
                pb).foldl applyWriteD st.datasets).take
                ((finalMap carPoly st db pb).length + qCount db))).take
              ((finalMap carPoly st db pb).length + qCount db) } : ChartData) = _
    rw [hW2, hfix]
  have hX : (processCars carPoly db.cars (updateChartCD carPoly st f).1
      ({ pb with cars := (processCars carPoly db.cars st pb.cars).2 } :
        PropBundle).cars).2 =
      pb.cars.map fun nb => (nb.1, mutateCarProps nb.2) := by
    rw [processCars_snd]
    have e : ({ pb with cars := (processCars carPoly db.cars st pb.cars).2 } :
        PropBundle).cars = pb.cars.map fun nb => (nb.1, mutateCarProps nb.2) :=
      processCars_snd carPoly db.cars st pb.cars
    rw [e, map_mutate_idem]
  have goal2 : ({ data := (updateChartCD carPoly st f).2.data,
                  properties := some
                    { cars := (processCars carPoly db.cars (updateChartCD carPoly st f).1
                        ({ pb with cars := (processCars carPoly db.cars st pb.cars).2 } :
                          PropBundle).cars).2,
                      lines := pb.lines, polygons := pb.polygons } } : Frame) =
      (updateChartCD carPoly st f).2 := by
    rw [hX, hf1, processCars_snd]
  rw [run2x, goal1, goal2]

/-- A frame whose style bags never use the reserved keys `text`/`data`
(`updateData` owns those two fields of every series). -/
def cleanFrame (f : Frame) : Prop :=
  match f.properties with
  | some pb => cleanPB pb
  | none => True

instance (f : Frame) : Decidable (cleanFrame f) :=
  match h : f.properties with
  | some pb => decidable_of_iff (cleanPB pb) (by unfold cleanFrame; rw [h])
  | none => decidable_of_iff True (by unfold cleanFrame; rw [h])

theorem applyFrame_accepted (carPoly : CarPolyFn) (xp yp : AxisPolicy)
    (st : FullState) (f : Frame) (db : DataBundle) (pb : PropBundle)
    (hd : f.data = some db) (hp : f.properties = some pb) :
    applyFrame carPoly xp yp st f =
      ({ cd := (updateChartCD carPoly st.cd f).1,
         xScale := runPolicy xp st.xScale (chartOf (updateChartCD carPoly st.cd f).1),
         yScale := runPolicy yp st.yScale (chartOf (updateChartCD carPoly st.cd f).1) },
        (updateChartCD carPoly st.cd f).2) := by
  unfold applyFrame
  rw [hd, hp]

theorem applyFrame_rejected_data (carPoly : CarPolyFn) (xp yp : AxisPolicy)
    (st : FullState) (f : Frame) (hd : f.data = none) :
    applyFrame carPoly xp yp st f = (st, f) := by
  unfold applyFrame
  rw [hd]

theorem applyFrame_rejected_prop (carPoly : CarPolyFn) (xp yp : AxisPolicy)
    (st : FullState) (f : Frame) (hp : f.properties = none) :
    applyFrame carPoly xp yp st f = (st, f) := by
  cases hdd : f.data with
  | none =>
    unfold applyFrame
    rw [hdd]
  | some db =>
    unfold applyFrame
    rw [hdd, hp]

/-- C7 (amended): re-applying the same frame is idempotent — identical series
sequence and axis ranges — provided the chart state is healthy (every
registered index lies within the series sequence and the registry is no
longer than the sequence) and the frame's style bags avoid the reserved
`text`/`data` keys; without these provisos the property fails. -/
theorem c7_amended (carPoly : CarPolyFn) (xp yp : AxisPolicy) (st : FullState)
    (f : Frame)
    (Hlt : ∀ q ∈ st.cd.name2idx, q.2 < st.cd.datasets.length)
    (Hle : st.cd.name2idx.length ≤ st.cd.datasets.length)
    (Hclean : cleanFrame f) :
    applyFrame carPoly xp yp (applyFrame carPoly xp yp st f).1
        (applyFrame carPoly xp yp st f).2 =
      applyFrame carPoly xp yp st f := by
  cases hd : f.data with
  | none =>
    have e := applyFrame_rejected_data carPoly xp yp st f hd
    rw [e]
    exact e
  | some db =>
    cases hp : f.properties with
    | none =>
      have e := applyFrame_rejected_prop carPoly xp yp st f hp
      rw [e]
      exact e
    | some pb =>
      have hcl : cleanPB pb := by
        unfold cleanFrame at Hclean
        rw [hp] at Hclean
        exact Hclean
      have run1 := applyFrame_accepted carPoly xp yp st f db pb hd hp
      have hu := updateChartCD_phases carPoly st.cd f db pb hd hp
      have hf1d : (updateChartCD carPoly st.cd f).2.data = some db := by
        rw [hu]
        exact hd
      have hf1p : (updateChartCD carPoly st.cd f).2.properties =
          some { pb with cars := (processCars carPoly db.cars st.cd pb.cars).2 } := by
        rw [hu]
      have hidem := updateChartCD_idem carPoly st.cd f db pb hd hp Hlt Hle hcl
      rw [run1]
      show applyFrame carPoly xp yp
        { cd := (updateChartCD carPoly st.cd f).1,
          xScale := runPolicy xp st.xScale (chartOf (updateChartCD carPoly st.cd f).1),
          yScale := runPolicy yp st.yScale (chartOf (updateChartCD carPoly st.cd f).1) }
        ((updateChartCD carPoly st.cd f).2) = _
      rw [applyFrame_accepted carPoly xp yp _ _ db
        { pb with cars := (processCars carPoly db.cars st.cd pb.cars).2 } hf1d hf1p]
      show (({ cd := (updateChartCD carPoly (updateChartCD carPoly st.cd f).1
                 (updateChartCD carPoly st.cd f).2).1,
               xScale := runPolicy xp (runPolicy xp st.xScale
                 (chartOf (updateChartCD carPoly st.cd f).1))
                 (chartOf (updateChartCD carPoly (updateChartCD carPoly st.cd f).1
                   (updateChartCD carPoly st.cd f).2).1),
               yScale := runPolicy yp (runPolicy yp st.yScale
                 (chartOf (updateChartCD carPoly st.cd f).1))
                 (chartOf (updateChartCD carPoly (updateChartCD carPoly st.cd f).1
                   (updateChartCD carPoly st.cd f).2).1) } : FullState),
        (updateChartCD carPoly (updateChartCD carPoly st.cd f).1
          (updateChartCD carPoly st.cd f).2).2) = _
      rw [hidem, runPolicy_idem, runPolicy_idem]

/-- A healthy empty chart for the idempotence witness. -/
abbrev c7wst : FullState := {}

/-- A clean frame carrying one car, one line and one polygon. -/
abbrev c7wf : Frame :=
  { data := some
      { cars := [("ego", { x := some 1, y := some 2, heading := some 0 })],
        lines := [("l", .pts [{ x := some 3, y := some 4 }])],
        polygons := some [("p", .pts [{ x := some 5, y := some 6 }])] },
    properties := some
      { cars := [("ego", [("color", .str "red")])],
        lines := [("l", [("color", .str "blue")])],
        polygons := [("p", [("color", .str "green")])] } }

/-- C7 (amended, witness): the amended idempotence applied to a concrete
healthy state and clean car/line/polygon frame. -/
theorem c7_amended_witness :
    (∀ q ∈ (c7wst : FullState).cd.name2idx, q.2 < c7wst.cd.datasets.length) ∧
    c7wst.cd.name2idx.length ≤ c7wst.cd.datasets.length ∧
    cleanFrame c7wf ∧
    applyFrame (fun _ _ _ => []) .plain .plain
        (applyFrame (fun _ _ _ => []) .plain .plain c7wst c7wf).1
        (applyFrame (fun _ _ _ => []) .plain .plain c7wst c7wf).2 =
      applyFrame (fun _ _ _ => []) .plain .plain c7wst c7wf :=
  ⟨by decide, by decide, by decide,
    c7_amended (fun _ _ _ => []) .plain .plain c7wst c7wf (by decide) (by decide)
      (by decide)⟩

end ScatterGraph
